import Mathlib

/-!
# Verification of the `mle-training1` data-ingestion and training pipeline

Shallow embedding of `src/mle_training1_raushanta/ingest_data.py` (the
`DataLoader` class: `_download_data`, `_load_data`, `_split`) and of the
module-level training script `src/mle_training1_raushanta/train.py`.

Conventions of the embedding:
* a pandas `DataFrame` is a list of column names plus rows of cells, where a
  cell is `Option Rat` (`none` models NaN / a missing value);
* machine floats are modelled by exact rationals;
* Python exceptions are modelled by `Except PyError`;
* the numpy `RandomState(seed)` Mersenne-Twister stream (used by
  `train_test_split(random_state=43)`) is outside the repository; it is
  modelled by a deterministic seed-derived key function.  Every theorem
  below that touches it uses only that a fixed seed determines a fixed
  permutation, never any distributional property.
-/

namespace MleTraining

/-- A cell of a data table: a rational value, or `none` for NaN / missing. -/
abbrev Cell := Option Rat

/-- Shallow embedding of a pandas `DataFrame`: named columns and rows of
cells.  Row `r` is aligned with `columns` positionally: `r.getD i none` is
the value of column `columns[i]`. -/
structure DataFrame where
  columns : List String
  rows : List (List Cell)
deriving DecidableEq, Repr

/-- A `DataFrame` is well formed when every row has one cell per column. -/
def DataFrame.WF (df : DataFrame) : Prop :=
  ∀ r ∈ df.rows, r.length = df.columns.length

instance (df : DataFrame) : Decidable df.WF := by
  unfold DataFrame.WF; infer_instance

/-- Position of a column label, `none` when the label is absent
(pandas raises `KeyError` on lookup in that case). -/
def DataFrame.colIdx (df : DataFrame) (c : String) : Option Nat :=
  df.columns.findIdx? (· == c)

/-- Column access `df[c]`: the cell of each row at the column's position. -/
def DataFrame.getCol (df : DataFrame) (c : String) : List Cell :=
  match df.colIdx c with
  | none => df.rows.map (fun _ => none)
  | some i => df.rows.map (fun r => r.getD i none)

/-- Column assignment `df[c] = vals` (pandas): overwrite the column in place
when the label already exists, otherwise append a new last column. -/
def DataFrame.assignCol (df : DataFrame) (c : String) (vals : List Cell) : DataFrame :=
  match df.colIdx c with
  | some i => { columns := df.columns
                rows := (df.rows.zip vals).map (fun p => p.1.set i p.2) }
  | none => { columns := df.columns ++ [c]
              rows := (df.rows.zip vals).map (fun p => p.1 ++ [p.2]) }

/-- `df.drop([c], axis=1)` (pandas): remove the column label and the cell at
its position from every row.  (In `_split` the dropped label is always
present, so the fall-through branch is never reached there.) -/
def DataFrame.dropCol (df : DataFrame) (c : String) : DataFrame :=
  match df.colIdx c with
  | some i => { columns := df.columns.eraseIdx i
                rows := df.rows.map (fun r => r.eraseIdx i) }
  | none => df

/-- Row selection `df.iloc[idx]` along a list of positional indices. -/
def DataFrame.selectRows (df : DataFrame) (idx : List Nat) : DataFrame :=
  { columns := df.columns, rows := idx.map (fun i => df.rows.getD i []) }

/-- The Python exceptions the ingestion code can surface, plus the spec's
error taxonomy where sklearn/pandas raise on its behalf. -/
inductive PyError
  /-- `NameError`: an unbound name, e.g. `logging` when the module is
  imported rather than run as a script. -/
  | nameError (n : String)
  /-- pandas `KeyError`: column label absent. -/
  | keyError (col : String)
  /-- `FileNotFoundError` — the spec's `MissingFile`. -/
  | fileNotFound (path : String)
  /-- sklearn `ValueError` for a float `test_size` outside `(0, 1)` — the
  spec's `InvalidArgument`. -/
  | invalidArgument
  /-- sklearn `ValueError` for a split of zero records — the spec's
  `EmptyInput`. -/
  | emptyInput
  /-- sklearn `ValueError`: stratification infeasible (NaN in the stratify
  column, a class with fewer than 2 members, or fewer test/train slots
  than classes). -/
  | stratError
deriving DecidableEq, Repr

/-! ## The seeded pseudo-random number generator

`train_test_split(..., random_state=43, shuffle=True)` draws from
`numpy.random.RandomState(43)`.  The Mersenne-Twister stream itself is
third-party code; it is modelled by a multiplicative hash producing a
deterministic key per (seed, position), and a shuffle is modelled as
sorting positions by key.  All downstream proofs use only that the result
is a permutation determined by the seed. -/

/-- Deterministic key stream standing in for the seeded Mersenne Twister. -/
def mix (seed i : Nat) : Nat :=
  (seed * 1103515245 + i * 2654435761 + 12345) % 2147483648

/-- Total order on positions by their pseudo-random key (index order on
key collisions), used to model one seeded shuffle. -/
def keyLE (seed : Nat) (i j : Nat) : Prop :=
  mix seed i < mix seed j ∨ (mix seed i = mix seed j ∧ i ≤ j)

instance (seed : Nat) : DecidableRel (keyLE seed) := fun i j => by
  unfold keyLE; infer_instance

/-- `rng.permutation(n)` modelled: `range n` sorted by seeded keys. -/
def rngPerm (seed n : Nat) : List Nat :=
  (List.range n).insertionSort (keyLE seed)

/-- Reorder a list of indices along a permutation of its positions. -/
def applyPerm (p : List Nat) (l : List Nat) : List Nat :=
  p.map (fun i => l.getD i 0)

/-! ## sklearn's stratified split -/

/-- Descending-remainder order used by `_approximate_mode` to choose which
classes receive one extra draw; ties among equal remainders are broken by
`rng.choice` in the source, modelled here by lowest index first. -/
def remOrder (rems : List Nat) (i j : Nat) : Prop :=
  rems.getD j 0 < rems.getD i 0 ∨ (rems.getD i 0 = rems.getD j 0 ∧ i ≤ j)

instance (rems : List Nat) : DecidableRel (remOrder rems) := fun i j => by
  unfold remOrder; infer_instance

/-- Embeds sklearn's `_approximate_mode(class_counts, n_draws, rng)`:
allocate `d` draws over classes proportionally to `counts`, flooring
`countsᵢ * d / total` and granting the remaining draws one each to the
classes with the largest remainders. -/
def approximateMode (counts : List Nat) (d : Nat) : List Nat :=
  let T := counts.sum
  let floored := counts.map (fun c => c * d / T)
  let rems := counts.map (fun c => c * d % T)
  let need := d - floored.sum
  let chosen := ((List.range counts.length).insertionSort (remOrder rems)).take need
  (List.range counts.length).map (fun i => floored.getD i 0 + if i ∈ chosen then 1 else 0)

/-- The number of leftover draws `_approximate_mode` still has to grant
after flooring (proof-infrastructure name for the corresponding
subexpression of `approximateMode`). -/
def amNeed (counts : List Nat) (d : Nat) : Nat :=
  d - (counts.map (fun c => c * d / counts.sum)).sum

/-- The class positions in descending-remainder order (proof-infrastructure
name for the corresponding subexpression of `approximateMode`). -/
def amOrder (counts : List Nat) (d : Nat) : List Nat :=
  (List.range counts.length).insertionSort
    (remOrder (counts.map (fun c => c * d % counts.sum)))

/-- The class positions granted one extra draw (proof-infrastructure name
for the corresponding subexpression of `approximateMode`). -/
def amChosen (counts : List Nat) (d : Nat) : List Nat :=
  (amOrder counts d).take (amNeed counts d)

/-- The distinct stratification classes in ascending order
(`np.unique` of the stratify column). -/
def classesOf (labels : List Nat) : List Nat :=
  labels.dedup.insertionSort (· ≤ ·)

/-- Per-class record counts, aligned with `classesOf`. -/
def classCounts (labels : List Nat) : List Nat :=
  (classesOf labels).map (fun c => labels.count c)

/-- Positions of the records of one class, in dataset order. -/
def indicesOf (labels : List Nat) (c : Nat) : List Nat :=
  (List.range labels.length).filter (fun i => labels.getD i 0 == c)

/-- sklearn `_validate_shuffle_split` for a float `test_size`:
`n_test = ceil(ts * n)` (and `n_train = floor((1-ts) * n) = n - n_test`
in exact arithmetic).  Written with executable integer arithmetic on the
fraction `ts = ts.num / ts.den`, as `ceil (a/b) = -((-a)/b)`;
`nTestOf_eq` identifies it with `⌈ts * n⌉`. -/
def nTestOf (n : Nat) (ts : Rat) : Nat :=
  (-((-(ts.num * n)) / (ts.den : Int))).toNat

/-- One class's contribution to the split.  `p = (class, n_i, t_i)`:
shuffle the class's record positions with the class-specific stream, then
the first `n_i` positions go to train and the next `t_i` to test. -/
def classPart (seed : Nat) (labels : List Nat) (p : Nat × Nat × Nat) :
    List Nat × List Nat :=
  ((applyPerm (rngPerm (mix seed p.1) (indicesOf labels p.1).length)
      (indicesOf labels p.1)).take p.2.1,
   ((applyPerm (rngPerm (mix seed p.1) (indicesOf labels p.1).length)
      (indicesOf labels p.1)).drop p.2.1).take p.2.2)

/-- Embeds `StratifiedShuffleSplit._iter_indices` (with `n_splits=1`)
followed by `train_test_split`'s materialisation order: apportion
`n_train` over the classes by `_approximate_mode`, apportion `n_test`
over what remains of each class, shuffle each class's record positions,
take the train then test block from each, concatenate across classes and
shuffle each side once more.  Returns `(train_indices, test_indices)`. -/
def stratIndices (seed : Nat) (labels : List Nat) (nTrain nTest : Nat) :
    List Nat × List Nat :=
  let counts := classCounts labels
  let nAlloc := approximateMode counts nTrain
  let tAlloc := approximateMode (List.zipWith (fun c a => c - a) counts nAlloc) nTest
  let parts := ((classesOf labels).zip (nAlloc.zip tAlloc)).map
    (classPart seed labels)
  let trainIdx := (parts.map Prod.fst).flatten
  let testIdx := (parts.map Prod.snd).flatten
  (applyPerm (rngPerm (mix seed 1000003) trainIdx.length) trainIdx,
   applyPerm (rngPerm (mix seed 1000033) testIdx.length) testIdx)

/-! ## `DataLoader._split` -/

/-- The bucket label `pd.cut(x, [0, 1.5, 3, 4.5, 6, np.inf], labels=range(5))`
assigns to one value (`ingest_data.py` lines 148–152).  `pd.cut` uses
right-closed bins `(edge_i, edge_{i+1}]`; a value at or below the lowest
edge `0` is out of range and yields NaN (`none`); the final edge `np.inf`
makes the last bin unbounded above; NaN input stays NaN. -/
def cutLabel : Cell → Option Nat
  | none => none
  | some v =>
    if v ≤ 0 then none
    else if v ≤ mkRat 3 2 then some 0
    else if v ≤ 3 then some 1
    else if v ≤ mkRat 9 2 then some 2
    else if v ≤ 6 then some 3
    else some 4

/-- The `income_range` bucket label of every record of `df`, from its
`median_income` column. -/
def dfLabelsOpt (df : DataFrame) : List (Option Nat) :=
  (df.getCol "median_income").map cutLabel

/-- The bucket labels once all records are known to be in range
(out-of-range records make the split fail before these are used). -/
def dfLabels (df : DataFrame) : List Nat :=
  (dfLabelsOpt df).map (fun l => l.getD 0)

/-- The train/test index pair `DataLoader._split` obtains from
`train_test_split` for a given seed: `n_test = ceil(ts * n)`,
`n_train = n - n_test`, stratified on the bucket labels. -/
def splitIdxOf (seed : Nat) (df : DataFrame) (ts : Rat) : List Nat × List Nat :=
  let n := df.rows.length
  stratIndices seed (dfLabels df) (n - nTestOf n ts) (nTestOf n ts)

/-- Embeds `DataLoader._split` after `_load_data` returned `df`
(`ingest_data.py` lines 147–167) for an arbitrary seed (the source fixes
`random_state=43`):

1. `df["income_range"] = pd.cut(df["median_income"], ...)` — a `KeyError`
   when the column is absent;
2. `train_test_split(df, test_size=ts, random_state=seed, shuffle=True,
   stratify=df["income_range"])` with sklearn's validation order: float
   `test_size` strictly inside `(0,1)`, a non-empty frame, no NaN in the
   stratify column (each NaN forms its own singleton class, which the
   least-populated-class check rejects), every class of size ≥ 2, and at
   least as many train and test slots as classes;
3. `logging.info(...)` — a `NameError` when the module-scope name
   `logging` is unbound, i.e. whenever the module is imported rather than
   run as a script (the source imports `logging` only under
   `if __name__ == "__main__":`);
4. drop the derived `income_range` column from both outputs. -/
def splitDF (loggingBound : Bool) (seed : Nat) (df : DataFrame) (ts : Rat) :
    Except PyError (DataFrame × DataFrame) :=
  if df.colIdx "median_income" = none then .error (.keyError "median_income")
  else if ¬(0 < ts ∧ ts < 1) then .error .invalidArgument
  else if df.rows.length = 0 then .error .emptyInput
  else if (dfLabelsOpt df).any (fun l => l.isNone) then .error .stratError
  else if (classCounts (dfLabels df)).any (fun c => c < 2) then .error .stratError
  else if df.rows.length - nTestOf df.rows.length ts < (classesOf (dfLabels df)).length
      ∨ nTestOf df.rows.length ts < (classesOf (dfLabels df)).length then
    .error .stratError
  else if ¬loggingBound then .error (.nameError "logging")
  else
    .ok (((df.assignCol "income_range"
            ((dfLabelsOpt df).map (fun l => l.map (fun i => mkRat i 1)))).selectRows
            (splitIdxOf seed df ts).1).dropCol "income_range",
         ((df.assignCol "income_range"
            ((dfLabelsOpt df).map (fun l => l.map (fun i => mkRat i 1)))).selectRows
            (splitIdxOf seed df ts).2).dropCol "income_range")

/-! ## `DataLoader._load_data` and `_download_data` -/

/-- Embeds `DataLoader._load_data` (`ingest_data.py` lines 113–135).  The
filesystem is a map from paths to parsed CSV contents (`none` = absent).
On a missing file the source first calls `logging.error` — a `NameError`
when `logging` is unbound — and only then re-raises `FileNotFoundError`. -/
def loadData (loggingBound : Bool) (fs : String → Option DataFrame)
    (inputPath infile : String) : Except PyError DataFrame :=
  match fs (inputPath ++ "/" ++ infile) with
  | some df => .ok df
  | none =>
    if loggingBound then .error (.fileNotFound (inputPath ++ "/" ++ infile))
    else .error (.nameError "logging")

/-- Embeds the observable control flow of `DataLoader._download_data`
(`ingest_data.py` lines 79–111): right after `mkdir` the source
unconditionally calls `logging.warning` — a `NameError` when `logging` is
unbound — before even checking whether the file exists.  The network
fetch and archive extraction are irrelevant to the claims and are
summarised by the returned flag (whether a download happened). -/
def downloadData (loggingBound : Bool) (fileExists : Bool) : Except PyError Bool :=
  if ¬loggingBound then .error (.nameError "logging")
  else if fileExists then .ok false
  else .ok true

/-- `DataLoader._split`'s full pipeline: `_load_data`, then the stratified
split with the hard-coded `random_state=43`. -/
def splitOp (loggingBound : Bool) (fs : String → Option DataFrame)
    (inputPath infile : String) (ts : Rat) : Except PyError (DataFrame × DataFrame) :=
  match loadData loggingBound fs inputPath infile with
  | .error e => .error e
  | .ok df => splitDF loggingBound 43 df ts

/-! ## `train.py` -/

/-- The columns `train.py` selects into `X` (note: the target
`median_house_value` is among them; not a claim under check). -/
def trainFeatures : List String :=
  ["total_rooms", "total_bedrooms", "population", "households",
   "median_income", "median_house_value"]

/-- What `train.py` produces: the fitted model, the test predictions, and
the two error statistics it prints (`rmse = sqrt mse`, so equal `mse`
means equal printed rmse). -/
structure TrainResult (μ : Type) where
  model : μ
  y_pred : List Rat
  mse : Rat
  mae : Rat

/-- `sklearn.metrics.mean_squared_error`. -/
def meanSquaredError (pred actual : List Rat) : Rat :=
  (((pred.zip actual).map (fun p => (p.1 - p.2) ^ 2)).sum) / pred.length

/-- `sklearn.metrics.mean_absolute_error`. -/
def meanAbsoluteError (pred actual : List Rat) : Rat :=
  (((pred.zip actual).map (fun p => |p.1 - p.2|)).sum) / pred.length

/-- Embeds the module-level script of `train.py` (lines 28–61),
parameterised by the opaque library routines it calls: `split`
(`train_test_split` with no seed — its hidden randomness is part of the
parameter), `fit` / `predict` (the `RandomForestRegressor`), and `scale`
(`StandardScaler().fit_transform`).  Faithful to the source, the scaled
matrix is assigned to `X` after `X_train`/`X_test` were already
materialised, and is never read again. -/
def trainScript (μ : Type)
    (split : List (List Rat) → List Rat →
      List (List Rat) × List (List Rat) × List Rat × List Rat)
    (fit : List (List Rat) → List Rat → μ)
    (predict : μ → List (List Rat) → List Rat)
    (scale : List (List Rat) → List (List Rat))
    (X : List (List Rat)) (y : List Rat) (normalize : Bool) : TrainResult μ :=
  let s := split X y
  let Xtrain := s.1
  let Xtest := s.2.1
  let ytrain := s.2.2.1
  let ytest := s.2.2.2
  -- `X = scaler.fit_transform(X)`: rebinds X, which is dead from here on
  let Xrebound := if normalize then scale X else X
  let model := fit Xtrain ytrain
  let yPred := predict model Xtest
  { model := model
    y_pred := yPred
    mse := meanSquaredError yPred ytest
    mae := meanAbsoluteError yPred ytest }

/-! ## Spec-side definitions (for refinement comparison only) -/

/-- The spec's rounding rule, from its words only ("allocate
`round(test_fraction * bucket_size)`", "standard round-half-to-even"):
Python's builtin `round`.  The fractional part `q - ⌊q⌋` is compared with
`1/2` through the integer encoding `2*(q.num - ⌊q⌋*q.den)` versus `q.den`.
Not part of the source model; used to compare the spec's per-bucket
allocation against the source's. -/
def specRound (q : Rat) : Int :=
  if 2 * (q.num - q.floor * q.den) < (q.den : Int) then q.floor
  else if (q.den : Int) < 2 * (q.num - q.floor * q.den) then q.floor + 1
  else if q.floor % 2 = 0 then q.floor else q.floor + 1

/-! ## Concrete datasets used as witnesses and counterexamples -/

/-- The spec §8 example dataset: 7 records whose `median_income` values
fall in buckets `{1,1,2,2,2,3,3}` (0-indexed). -/
def df7 : DataFrame :=
  { columns := ["median_income"]
    rows := [[some 2], [some 3], [some (mkRat 7 2)], [some 4],
             [some (mkRat 9 2)], [some 5], [some 6]] }

/-- 5 records, all in a single bucket. -/
def df5 : DataFrame :=
  { columns := ["median_income"]
    rows := [[some 1], [some 1], [some 1], [some 1], [some 1]] }

/-- A dataset that already carries a column named `income_range`. -/
def dfDup : DataFrame :=
  { columns := ["median_income", "income_range"]
    rows := [[some 1, some 99], [some 1, some 99], [some 1, some 99],
             [some 1, some 99], [some 1, some 99]] }

/-- 200 records, all in a single bucket. -/
def df200 : DataFrame :=
  { columns := ["median_income"], rows := List.replicate 200 [some 1] }

/-- The train frame `_split` returns on `df200` (seed 43, `test_size = 1/2`):
the successful branch of `splitDF`, spelled out. -/
def df200TrainFrame : DataFrame :=
  ((df200.assignCol "income_range"
      ((dfLabelsOpt df200).map (fun l => l.map (fun i => mkRat i 1)))).selectRows
      (splitIdxOf 43 df200 (mkRat 1 2)).1).dropCol "income_range"

/-- The test frame `_split` returns on `df200` (seed 43, `test_size = 1/2`). -/
def df200TestFrame : DataFrame :=
  ((df200.assignCol "income_range"
      ((dfLabelsOpt df200).map (fun l => l.map (fun i => mkRat i 1)))).selectRows
      (splitIdxOf 43 df200 (mkRat 1 2)).2).dropCol "income_range"

/-- The train-side column list of a split result, when it succeeded. -/
def trainColumns : Except PyError (DataFrame × DataFrame) → Option (List String)
  | .ok p => some p.1.columns
  | .error _ => none

instance {ε α : Type} [DecidableEq ε] [DecidableEq α] :
    DecidableEq (Except ε α) := fun a b =>
  match a, b with
  | .ok x, .ok y =>
    if h : x = y then .isTrue (by rw [h])
    else .isFalse (fun hc => h (Except.ok.inj hc))
  | .error x, .error y =>
    if h : x = y then .isTrue (by rw [h])
    else .isFalse (fun hc => h (Except.error.inj hc))
  | .ok _, .error _ => .isFalse (fun hc => Except.noConfusion hc)
  | .error _, .ok _ => .isFalse (fun hc => Except.noConfusion hc)

/-! # Theorems -/

/-! ## Generic list lemmas -/

theorem map_getD_range {α : Type} (l : List α) (d : α) :
    (List.range l.length).map (fun i => l.getD i d) = l := by
  induction l with
  | nil => rfl
  | cons a t ih =>
    rw [List.length_cons, List.range_succ_eq_map, List.map_cons, List.map_map]
    refine congrArg₂ List.cons rfl ?_
    simpa [Function.comp_def] using ih

theorem getD_map_range {α : Type} (n : Nat) (f : Nat → α) (d : α) (i : Nat)
    (hi : i < n) : ((List.range n).map f).getD i d = f i := by
  rw [List.getD_eq_getElem?_getD, List.getElem?_map, List.getElem?_range hi]
  rfl

theorem getD_map_of_lt {α β : Type} (f : α → β) (l : List α) (da : α) (db : β)
    (i : Nat) (hi : i < l.length) :
    (l.map f).getD i db = f (l.getD i da) := by
  rw [List.getD_eq_getElem (l.map f) db (by simpa using hi),
    List.getD_eq_getElem l da hi, List.getElem_map]

theorem countP_range_getD (labels : List Nat) (p : Nat → Bool) :
    (List.range labels.length).countP (fun i => p (labels.getD i 0))
      = labels.countP p := by
  have h := List.countP_map p (fun i => labels.getD i 0) (List.range labels.length)
  rw [map_getD_range] at h
  exact h.symm.trans (by rfl)

theorem sum_map_ite {p : Nat → Prop} [DecidablePred p] (l : List Nat) :
    (l.map (fun i => if p i then 1 else 0)).sum
      = (l.filter (fun i => decide (p i))).length := by
  induction l with
  | nil => rfl
  | cons a t ih =>
    by_cases h : p a <;> simp [List.filter_cons, h, ih] <;> omega

theorem filter_mem_perm (l s : List Nat) (hl : l.Nodup) (hs : s.Nodup)
    (hsub : ∀ x ∈ s, x ∈ l) :
    (l.filter (fun i => decide (i ∈ s))).Perm s := by
  apply List.Subperm.antisymm
  · exact ((hl.filter _).subperm
      (fun x hx => by simpa using (List.mem_filter.mp hx).2))
  · exact (hs.subperm
      (fun x hx => List.mem_filter.mpr ⟨hsub x hx, by simpa using hx⟩))

theorem sum_map_ite_mem (l s : List Nat) (hl : l.Nodup) (hs : s.Nodup)
    (hsub : ∀ x ∈ s, x ∈ l) :
    (l.map (fun i => if i ∈ s then 1 else 0)).sum = s.length := by
  rw [sum_map_ite]
  exact (filter_mem_perm l s hl hs hsub).length_eq

theorem sum_map_add_nat {α : Type} (l : List α) (f g : α → Nat) :
    (l.map (fun x => f x + g x)).sum = (l.map f).sum + (l.map g).sum := by
  induction l with
  | nil => rfl
  | cons a t ih => simp [ih]; omega

theorem sum_zipWith_sub (l₁ l₂ : List Nat) (hlen : l₂.length = l₁.length)
    (hle : ∀ i, i < l₁.length → l₂.getD i 0 ≤ l₁.getD i 0) :
    (List.zipWith (fun c a => c - a) l₁ l₂).sum = l₁.sum - l₂.sum ∧
      l₂.sum ≤ l₁.sum := by
  induction l₁ generalizing l₂ with
  | nil =>
    have : l₂ = [] := List.length_eq_zero.mp hlen
    simp [this]
  | cons a t ih =>
    match l₂, hlen with
    | b :: t₂, hlen =>
      have hab : b ≤ a := by
        have := hle 0 (by simp)
        simpa using this
      have ht : ∀ i, i < t.length → t₂.getD i 0 ≤ t.getD i 0 := by
        intro i hi
        have := hle (i + 1) (by simpa using hi)
        simpa using this
      obtain ⟨h1, h2⟩ := ih t₂ (by simpa using hlen) ht
      constructor
      · simp only [List.zipWith_cons_cons, List.sum_cons, h1]
        omega
      · simp only [List.sum_cons]
        omega

/-! ## Lemmas about `approximateMode` -/

instance (rems : List Nat) : IsTotal Nat (remOrder rems) :=
  ⟨fun i j => by
    unfold remOrder
    rcases lt_trichotomy (rems.getD i 0) (rems.getD j 0) with h | h | h
    · exact Or.inr (Or.inl h)
    · rcases Nat.le_total i j with hij | hij
      · exact Or.inl (Or.inr ⟨h, hij⟩)
      · exact Or.inr (Or.inr ⟨h.symm, hij⟩)
    · exact Or.inl (Or.inl h)⟩

instance (rems : List Nat) : IsTrans Nat (remOrder rems) :=
  ⟨fun i j k hij hjk => by
    unfold remOrder at hij hjk ⊢
    rcases hij with h1 | h1 <;> rcases hjk with h2 | h2
    · exact Or.inl (h2.trans h1)
    · exact Or.inl (by rw [← h2.1]; exact h1)
    · exact Or.inl (by rw [h1.1]; exact h2)
    · exact Or.inr ⟨h1.1.trans h2.1, h1.2.trans h2.2⟩⟩

theorem approximateMode_length (counts : List Nat) (d : Nat) :
    (approximateMode counts d).length = counts.length := by
  simp [approximateMode]

theorem approximateMode_getD (counts : List Nat) (d i : Nat)
    (hi : i < counts.length) :
    (approximateMode counts d).getD i 0 =
      counts.getD i 0 * d / counts.sum +
      if i ∈ amChosen counts d then 1 else 0 := by
  show ((List.range counts.length).map (fun i =>
      (counts.map (fun c => c * d / counts.sum)).getD i 0 +
      if i ∈ amChosen counts d then 1 else 0)).getD i 0 = _
  rw [getD_map_range _ _ _ _ hi]
  congr 2
  exact getD_map_of_lt _ counts 0 0 i hi

theorem floored_rems_identity (counts : List Nat) (d : Nat) :
    counts.sum * (counts.map (fun c => c * d / counts.sum)).sum
      + (counts.map (fun c => c * d % counts.sum)).sum = counts.sum * d := by
  have h : counts.map (fun c => counts.sum * (c * d / counts.sum) + c * d % counts.sum)
      = counts.map (fun c => c * d) :=
    List.map_congr_left (fun c _ => Nat.div_add_mod (c * d) counts.sum)
  have h2 := congrArg List.sum h
  rw [sum_map_add_nat, List.sum_map_mul_left] at h2
  rw [h2]
  have h3 : (counts.map (fun c => c * d)).sum
      = (counts.map (fun c => c)).sum * d := by
    rw [← List.sum_map_mul_right]
  rw [h3]
  simp [mul_comm]

theorem floored_sum_le (counts : List Nat) (d : Nat) (hT : 0 < counts.sum) :
    (counts.map (fun c => c * d / counts.sum)).sum ≤ d := by
  have h := floored_rems_identity counts d
  have h2 : counts.sum * (counts.map (fun c => c * d / counts.sum)).sum
      ≤ counts.sum * d := by omega
  exact Nat.le_of_mul_le_mul_left h2 hT

theorem rems_sum_eq (counts : List Nat) (d : Nat) (hT : 0 < counts.sum) :
    (counts.map (fun c => c * d % counts.sum)).sum
      = counts.sum * (d - (counts.map (fun c => c * d / counts.sum)).sum) := by
  have h := floored_rems_identity counts d
  have hle := floored_sum_le counts d hT
  have h2 : counts.sum * (d - (counts.map (fun c => c * d / counts.sum)).sum)
      = counts.sum * d
        - counts.sum * (counts.map (fun c => c * d / counts.sum)).sum := by
    rw [Nat.mul_comm counts.sum (d - _), Nat.sub_mul,
      Nat.mul_comm d, Nat.mul_comm _ counts.sum]
  rw [h2]
  obtain ⟨A, hA⟩ : ∃ A, counts.sum * (counts.map
      (fun c => c * d / counts.sum)).sum = A := ⟨_, rfl⟩
  obtain ⟨B, hB⟩ : ∃ B, counts.sum * d = B := ⟨_, rfl⟩
  rw [hA, hB] at h ⊢
  omega

theorem need_lt_length (counts : List Nat) (d : Nat) (hT : 0 < counts.sum) :
    d - (counts.map (fun c => c * d / counts.sum)).sum < counts.length := by
  have hlen : 0 < counts.length := by
    cases counts with
    | nil => simp at hT
    | cons _ _ => simp
  have hr : ∀ x ∈ counts.map (fun c => c * d % counts.sum), x ≤ counts.sum - 1 := by
    intro x hx
    obtain ⟨c, _, rfl⟩ := List.mem_map.mp hx
    have := Nat.mod_lt (c * d) hT
    omega
  have hsum := List.sum_le_card_nsmul _ _ hr
  rw [List.length_map, smul_eq_mul] at hsum
  rw [rems_sum_eq counts d hT] at hsum
  by_contra hcon
  push_neg at hcon
  have h1 : counts.sum * counts.length
      ≤ counts.sum * (d - (counts.map (fun c => c * d / counts.sum)).sum) :=
    Nat.mul_le_mul_left _ hcon
  have h2 : counts.length * (counts.sum - 1)
      = counts.length * counts.sum - counts.length := by
    rw [← Nat.pred_eq_sub_one, Nat.mul_pred]
  have h3 : counts.sum * counts.length
      ≤ counts.length * counts.sum - counts.length :=
    le_trans h1 (le_trans hsum (le_of_eq h2))
  rw [Nat.mul_comm] at h3
  have hpos : 0 < counts.length * counts.sum := Nat.mul_pos hlen hT
  obtain ⟨A, hA⟩ : ∃ A, counts.length * counts.sum = A := ⟨_, rfl⟩
  rw [hA] at h3 hpos
  omega

theorem amOrder_perm (counts : List Nat) (d : Nat) :
    (amOrder counts d).Perm (List.range counts.length) :=
  List.perm_insertionSort _ _

theorem amChosen_nodup (counts : List Nat) (d : Nat) :
    (amChosen counts d).Nodup :=
  ((List.take_sublist _ _).nodup
    ((amOrder_perm counts d).nodup_iff.mpr (List.nodup_range _)))

theorem amChosen_lt (counts : List Nat) (d : Nat) :
    ∀ i ∈ amChosen counts d, i < counts.length := fun i hi =>
  List.mem_range.mp
    ((amOrder_perm counts d).mem_iff.mp (List.take_subset _ _ hi))

theorem amChosen_length (counts : List Nat) (d : Nat) (hT : 0 < counts.sum) :
    (amChosen counts d).length = amNeed counts d := by
  unfold amChosen
  rw [List.length_take, (amOrder_perm counts d).length_eq, List.length_range]
  exact min_eq_left (le_of_lt (need_lt_length counts d hT))

theorem approximateMode_sum (counts : List Nat) (d : Nat)
    (hT : 0 < counts.sum) : (approximateMode counts d).sum = d := by
  have hfl := floored_sum_le counts d hT
  have heq : approximateMode counts d = (List.range counts.length).map
      (fun i => (counts.map (fun c => c * d / counts.sum)).getD i 0
        + if i ∈ amChosen counts d then 1 else 0) := rfl
  rw [heq, sum_map_add_nat]
  have h1 : ((List.range counts.length).map
      (fun i => (counts.map (fun c => c * d / counts.sum)).getD i 0)).sum
      = (counts.map (fun c => c * d / counts.sum)).sum := by
    have h := map_getD_range (counts.map (fun c => c * d / counts.sum)) 0
    rw [List.length_map] at h
    rw [h]
  have h2 : ((List.range counts.length).map
      (fun i => if i ∈ amChosen counts d then 1 else 0)).sum
      = (amChosen counts d).length := by
    refine sum_map_ite_mem _ _ (List.nodup_range _) (amChosen_nodup counts d)
      (fun x hx => List.mem_range.mpr (amChosen_lt counts d x hx))
  rw [h1, h2, amChosen_length counts d hT]
  unfold amNeed
  omega

theorem approximateMode_sum_self (r : List Nat) :
    approximateMode r r.sum = r := by
  have hfl : r.map (fun c => c * r.sum / r.sum) = r := by
    have h : r.map (fun c => c * r.sum / r.sum) = r.map id := by
      refine List.map_congr_left (fun c hc => ?_)
      rcases Nat.eq_zero_or_pos r.sum with h0 | hpos
      · have hc0 : c = 0 := by
          have := List.le_sum_of_mem hc
          omega
        simp [hc0]
      · exact Nat.mul_div_cancel _ hpos
    rw [h, List.map_id]
  have heq : approximateMode r r.sum = (List.range r.length).map
      (fun i => (r.map (fun c => c * r.sum / r.sum)).getD i 0
        + if i ∈ amChosen r r.sum then 1 else 0) := rfl
  have hneed : amNeed r r.sum = 0 := by
    unfold amNeed
    rw [hfl, Nat.sub_self]
  have hch : amChosen r r.sum = [] := by
    unfold amChosen
    rw [hneed, List.take_zero]
  rw [heq, hfl, hch]
  simp only [List.not_mem_nil, if_false, Nat.add_zero]
  exact map_getD_range r 0

theorem approximateMode_getD_bounds (counts : List Nat) (d i : Nat)
    (hi : i < counts.length) :
    counts.getD i 0 * d / counts.sum ≤ (approximateMode counts d).getD i 0 ∧
    (approximateMode counts d).getD i 0
      ≤ counts.getD i 0 * d / counts.sum + 1 := by
  rw [approximateMode_getD _ _ _ hi]
  by_cases h : i ∈ amChosen counts d <;> simp [h]

theorem sum_le_countP_pos_mul (l : List Nat) (B : Nat)
    (hB : ∀ x ∈ l, x ≤ B) :
    l.sum ≤ l.countP (fun x => 0 < x) * B := by
  induction l with
  | nil => simp
  | cons a t ih =>
    have hB' : ∀ x ∈ t, x ≤ B := fun x hx => hB x (List.mem_cons_of_mem _ hx)
    have ht := ih hB'
    have ha := hB a (List.mem_cons_self a t)
    by_cases hpos : 0 < a
    · have hc : (a :: t).countP (fun x => 0 < x)
          = t.countP (fun x => 0 < x) + 1 := by
        simp [List.countP_cons, hpos]
      rw [List.sum_cons, hc, Nat.add_mul, Nat.one_mul]
      omega
    · have hc : (a :: t).countP (fun x => 0 < x)
          = t.countP (fun x => 0 < x) := by
        simp [List.countP_cons, hpos]
      rw [List.sum_cons, hc]
      omega

theorem need_le_countP_pos (counts : List Nat) (d : Nat)
    (hT : 0 < counts.sum) :
    amNeed counts d
      ≤ (counts.map (fun c => c * d % counts.sum)).countP (fun x => 0 < x) := by
  have hB : ∀ x ∈ counts.map (fun c => c * d % counts.sum), x ≤ counts.sum - 1 := by
    intro x hx
    obtain ⟨c, _, rfl⟩ := List.mem_map.mp hx
    have := Nat.mod_lt (c * d) hT
    omega
  have h1 := sum_le_countP_pos_mul _ _ hB
  rw [rems_sum_eq counts d hT] at h1
  have h1 : counts.sum * amNeed counts d
      ≤ (counts.map (fun c => c * d % counts.sum)).countP (fun x => 0 < x)
        * (counts.sum - 1) := h1
  set P := (counts.map (fun c => c * d % counts.sum)).countP (fun x => 0 < x) with hP
  by_contra hcon
  push_neg at hcon
  have h2 : counts.sum * (P + 1) ≤ counts.sum * amNeed counts d :=
    Nat.mul_le_mul_left _ hcon
  have h3 : P * (counts.sum - 1) = P * counts.sum - P := by
    rw [← Nat.pred_eq_sub_one, Nat.mul_pred]
  rw [h3] at h1
  rw [Nat.mul_add, Nat.mul_one] at h2
  rw [Nat.mul_comm counts.sum P] at h2
  obtain ⟨A, hA⟩ : ∃ A, P * counts.sum = A := ⟨_, rfl⟩
  obtain ⟨C, hC⟩ : ∃ C, counts.sum * amNeed counts d = C := ⟨_, rfl⟩
  rw [hA, hC] at h1 h2
  omega

theorem amChosen_rem_pos (counts : List Nat) (d : Nat) (hT : 0 < counts.sum) :
    ∀ i ∈ amChosen counts d,
      0 < (counts.map (fun c => c * d % counts.sum)).getD i 0 := by
  intro i hi
  by_contra h0
  push_neg at h0
  have hrem : (counts.map (fun c => c * d % counts.sum)).getD i 0 = 0 :=
    Nat.le_zero.mp h0
  obtain ⟨s, t, hst⟩ := List.append_of_mem hi
  have horder : amOrder counts d
      = s ++ i :: (t ++ (amOrder counts d).drop (amNeed counts d)) := by
    have h1 : amChosen counts d ++ (amOrder counts d).drop (amNeed counts d)
        = amOrder counts d :=
      List.take_append_drop _ _
    nth_rewrite 1 [← h1]
    rw [hst, List.append_assoc, List.cons_append]
  have hsorted : List.Pairwise
      (remOrder (counts.map (fun c => c * d % counts.sum)))
      (amOrder counts d) :=
    List.sorted_insertionSort _ _
  rw [horder] at hsorted
  have hrest : ∀ j ∈ t ++ (amOrder counts d).drop (amNeed counts d),
      (counts.map (fun c => c * d % counts.sum)).getD j 0 = 0 := by
    have hp := (List.pairwise_append.mp hsorted).2.1
    have hcons := List.pairwise_cons.mp hp
    intro j hj
    have hr := hcons.1 j hj
    unfold remOrder at hr
    omega
  have hcount : (amOrder counts d).countP
      (fun x => 0 < (counts.map (fun c => c * d % counts.sum)).getD x 0)
      = (counts.map (fun c => c * d % counts.sum)).countP (fun x => 0 < x) := by
    rw [(amOrder_perm counts d).countP_eq]
    have h := countP_range_getD (counts.map (fun c => c * d % counts.sum))
      (fun x => 0 < x)
    rw [List.length_map] at h
    exact h
  rw [horder] at hcount
  rw [List.countP_append] at hcount
  have hz2 : (i :: (t ++ (amOrder counts d).drop (amNeed counts d))).countP
      (fun x => 0 < (counts.map (fun c => c * d % counts.sum)).getD x 0) = 0 := by
    rw [List.countP_eq_zero]
    intro a ha
    rcases List.mem_cons.mp ha with rfl | ha'
    · rw [hrem]
      decide
    · rw [hrest a ha']
      decide
  have hlen : s.length < amNeed counts d := by
    have := congrArg List.length hst
    rw [amChosen_length counts d hT] at this
    rw [List.length_append, List.length_cons] at this
    omega
  have hsle : s.countP (fun x => 0 <
      (counts.map (fun c => c * d % counts.sum)).getD x 0) ≤ s.length :=
    List.countP_le_length _
  have hneed := need_le_countP_pos counts d hT
  omega

theorem approximateMode_le_counts (counts : List Nat) (d : Nat)
    (hd : d ≤ counts.sum) (i : Nat) (hi : i < counts.length) :
    (approximateMode counts d).getD i 0 ≤ counts.getD i 0 := by
  rcases Nat.eq_zero_or_pos counts.sum with hT | hT
  · have hd0 : d = 0 := by omega
    subst hd0
    rw [approximateMode_getD _ _ _ hi]
    have hch : amChosen counts 0 = [] := by
      unfold amChosen amNeed
      simp
    rw [hch]
    simp
  · rw [approximateMode_getD _ _ _ hi]
    have hfle : counts.getD i 0 * d / counts.sum ≤ counts.getD i 0 := by
      have h2 : counts.getD i 0 * d ≤ counts.getD i 0 * counts.sum :=
        Nat.mul_le_mul_left _ hd
      calc counts.getD i 0 * d / counts.sum
          ≤ counts.getD i 0 * counts.sum / counts.sum :=
            Nat.div_le_div_right h2
        _ = counts.getD i 0 := Nat.mul_div_cancel _ hT
    by_cases hmem : i ∈ amChosen counts d
    · have hpos := amChosen_rem_pos counts d hT i hmem
      rw [getD_map_of_lt (fun c => c * d % counts.sum) counts 0 0 i hi] at hpos
      have h1 : counts.sum * (counts.getD i 0 * d / counts.sum)
            + counts.getD i 0 * d % counts.sum = counts.getD i 0 * d :=
        Nat.div_add_mod _ _
      have h2 : counts.getD i 0 * d ≤ counts.getD i 0 * counts.sum :=
        Nat.mul_le_mul_left _ hd
      have h3 : counts.getD i 0 * d / counts.sum < counts.getD i 0 := by
        by_contra hcon
        push_neg at hcon
        have h4 : counts.sum * counts.getD i 0
            ≤ counts.sum * (counts.getD i 0 * d / counts.sum) :=
          Nat.mul_le_mul_left _ hcon
        have h2' : counts.getD i 0 * d ≤ counts.sum * counts.getD i 0 := by
          rw [Nat.mul_comm counts.sum]
          exact h2
        obtain ⟨A, hA⟩ : ∃ A,
            counts.sum * (counts.getD i 0 * d / counts.sum) = A := ⟨_, rfl⟩
        obtain ⟨B, hB⟩ : ∃ B, counts.getD i 0 * d = B := ⟨_, rfl⟩
        obtain ⟨C, hC⟩ : ∃ C, counts.sum * counts.getD i 0 = C := ⟨_, rfl⟩
        rw [hA, hB] at h1
        rw [hB] at hpos
        rw [hB, hC] at h2'
        rw [hC, hA] at h4
        omega
      simp only [hmem, if_true]
      omega
    · simp only [hmem, if_false, Nat.add_zero]
      exact hfle

/-! ## Permutation lemmas for the stratified split -/

theorem rngPerm_perm (seed n : Nat) : (rngPerm seed n).Perm (List.range n) :=
  List.perm_insertionSort _ _

theorem applyPerm_perm (p l : List Nat) (hp : p.Perm (List.range l.length)) :
    (applyPerm p l).Perm l := by
  have h2 : (applyPerm p l).Perm
      ((List.range l.length).map (fun i => l.getD i 0)) := hp.map _
  rwa [map_getD_range] at h2

theorem rng_applyPerm_perm (seed : Nat) (l : List Nat) :
    (applyPerm (rngPerm seed l.length) l).Perm l :=
  applyPerm_perm _ l (rngPerm_perm seed l.length)

theorem take_append_dropTake {α : Type} (a t : Nat) (l : List α)
    (h : a + t = l.length) : l.take a ++ (l.drop a).take t = l := by
  have ht : t = (l.drop a).length := by
    rw [List.length_drop]
    omega
  rw [ht, List.take_length, List.take_append_drop]

theorem flatten_fst_append_snd_perm {α : Type}
    (ps : List (List α × List α)) :
    ((ps.map Prod.fst).flatten ++ (ps.map Prod.snd).flatten).Perm
      ((ps.map (fun p => p.1 ++ p.2)).flatten) := by
  induction ps with
  | nil => rfl
  | cons p ps ih =>
    simp only [List.map_cons, List.flatten_cons]
    have h1 : ((ps.map Prod.fst).flatten
        ++ (p.2 ++ (ps.map Prod.snd).flatten)).Perm
        (p.2 ++ ((ps.map Prod.fst).flatten ++ (ps.map Prod.snd).flatten)) := by
      rw [← List.append_assoc, ← List.append_assoc]
      exact List.Perm.append_right _ List.perm_append_comm
    have h2 := List.Perm.append_left p.1 h1
    have h3 := List.Perm.append_left p.1
      (List.Perm.append_left p.2 ih)
    have h4 : (p.1 ++ (ps.map Prod.fst).flatten)
        ++ (p.2 ++ (ps.map Prod.snd).flatten)
        = p.1 ++ ((ps.map Prod.fst).flatten
            ++ (p.2 ++ (ps.map Prod.snd).flatten)) :=
      List.append_assoc _ _ _
    have h5 : p.1 ++ (p.2 ++ (ps.map (fun p => p.1 ++ p.2)).flatten)
        = (p.1 ++ p.2) ++ (ps.map (fun p => p.1 ++ p.2)).flatten :=
      (List.append_assoc _ _ _).symm
    rw [h4]
    exact h5 ▸ (h2.trans h3)

theorem flatten_perm_of_forall₂ {α : Type} (l₁ l₂ : List (List α))
    (h : List.Forall₂ List.Perm l₁ l₂) : l₁.flatten.Perm l₂.flatten := by
  induction h with
  | nil => rfl
  | cons h1 _ ih =>
    simp only [List.flatten_cons]
    exact h1.append ih

theorem flatten_filter_perm (lab : Nat → Nat) :
    ∀ (cs : List Nat) (l : List Nat), cs.Nodup → (∀ x ∈ l, lab x ∈ cs) →
      ((cs.map (fun c => l.filter (fun x => lab x == c))).flatten).Perm l := by
  intro cs
  induction cs with
  | nil =>
    intro l _ hcov
    have hl : l = [] := by
      cases l with
      | nil => rfl
      | cons a t => exact absurd (hcov a (List.mem_cons_self a t)) (by simp)
    simp [hl]
  | cons c cs ih =>
    intro l hnd hcov
    rw [List.map_cons, List.flatten_cons]
    have hstep : cs.map (fun c' => l.filter (fun x => lab x == c'))
        = cs.map (fun c' =>
            (l.filter (fun x => !(lab x == c))).filter
              (fun x => lab x == c')) := by
      refine List.map_congr_left (fun c' hc' => ?_)
      have hne : c' ≠ c := by
        intro he
        exact (List.nodup_cons.mp hnd).1 (he ▸ hc')
      rw [List.filter_filter]
      refine (List.filter_congr (fun x _ => ?_)).symm
      cases hx : (lab x == c') with
      | true =>
        have : lab x = c' := by simpa using hx
        simp [this, hne]
      | false => simp
    rw [hstep]
    have hcov' : ∀ x ∈ l.filter (fun x => !(lab x == c)), lab x ∈ cs := by
      intro x hx
      obtain ⟨hxl, hxc⟩ := List.mem_filter.mp hx
      have := hcov x hxl
      rcases List.mem_cons.mp this with he | hm
      · exfalso
        simp [he] at hxc
      · exact hm
    have hih := ih (l.filter (fun x => !(lab x == c)))
      (List.nodup_cons.mp hnd).2 hcov'
    exact (List.Perm.append_left _ hih).trans (List.filter_append_perm _ l)

theorem classesOf_nodup (labels : List Nat) : (classesOf labels).Nodup :=
  (List.perm_insertionSort _ _).nodup_iff.mpr labels.nodup_dedup

theorem mem_classesOf {labels : List Nat} {x : Nat} (hx : x ∈ labels) :
    x ∈ classesOf labels := by
  unfold classesOf
  rw [List.mem_insertionSort]
  exact List.mem_dedup.mpr hx

theorem sum_classCounts (labels : List Nat) :
    (classCounts labels).sum = labels.length := by
  unfold classCounts classesOf
  have hperm : (labels.dedup.insertionSort (· ≤ ·)).Perm labels.dedup :=
    List.perm_insertionSort _ _
  rw [(hperm.map (fun c => labels.count c)).sum_eq]
  exact List.sum_map_count_dedup_eq_length labels

theorem length_indicesOf (labels : List Nat) (c : Nat) :
    (indicesOf labels c).length = labels.count c := by
  unfold indicesOf
  rw [← List.countP_eq_length_filter]
  exact countP_range_getD labels (fun x => x == c)

theorem getD_mem_of_lt {α : Type} {l : List α} {d : α} {i : Nat}
    (hi : i < l.length) : l.getD i d ∈ l := by
  rw [List.getD_eq_getElem l d hi]
  exact List.getElem_mem hi

theorem parts_append_perm (seed : Nat) (labels : List Nat)
    (nAlloc tAlloc : List Nat)
    (hlen1 : nAlloc.length = (classesOf labels).length)
    (hlen2 : tAlloc.length = (classesOf labels).length)
    (hat : ∀ j, j < (classesOf labels).length →
      nAlloc.getD j 0 + tAlloc.getD j 0 = (classCounts labels).getD j 0) :
    (((((classesOf labels).zip (nAlloc.zip tAlloc)).map
        (classPart seed labels)).map Prod.fst).flatten
      ++ ((((classesOf labels).zip (nAlloc.zip tAlloc)).map
        (classPart seed labels)).map Prod.snd).flatten).Perm
      (List.range labels.length) := by
  have hPlen : ((classesOf labels).zip (nAlloc.zip tAlloc)).length
      = (classesOf labels).length := by
    rw [List.length_zip, List.length_zip, hlen1, hlen2]
    simp
  have step1 := flatten_fst_append_snd_perm
    (((classesOf labels).zip (nAlloc.zip tAlloc)).map (classPart seed labels))
  have step2 : List.Forall₂ List.Perm
      ((((classesOf labels).zip (nAlloc.zip tAlloc)).map
          (classPart seed labels)).map (fun q => q.1 ++ q.2))
      ((classesOf labels).map (fun c => indicesOf labels c)) := by
    rw [List.forall₂_iff_get]
    constructor
    · rw [List.length_map, List.length_map, List.length_map, hPlen]
    · intro j h₁ h₂
      rw [List.length_map, List.length_map, hPlen] at h₁
      have hj1 : j < nAlloc.length := by
        rw [hlen1]
        exact h₁
      have hj2 : j < tAlloc.length := by
        rw [hlen2]
        exact h₁
      have hjz2 : j < (nAlloc.zip tAlloc).length := by
        rw [List.length_zip]
        omega
      have hjz : j < ((classesOf labels).zip (nAlloc.zip tAlloc)).length := by
        rw [hPlen]
        exact h₁
      rw [List.get_eq_getElem, List.get_eq_getElem, List.getElem_map,
        List.getElem_map, List.getElem_map]
      have hzip : ((classesOf labels).zip (nAlloc.zip tAlloc))[j]
          = ((classesOf labels)[j], (nAlloc.zip tAlloc)[j]) :=
        List.getElem_zip
      have hzip2 : (nAlloc.zip tAlloc)[j] = (nAlloc[j], tAlloc[j]) :=
        List.getElem_zip
      rw [hzip, hzip2]
      simp only [classPart]
      have hpermj : (applyPerm (rngPerm (mix seed ((classesOf labels)[j]))
          (indicesOf labels ((classesOf labels)[j])).length)
          (indicesOf labels ((classesOf labels)[j]))).Perm
          (indicesOf labels ((classesOf labels)[j])) :=
        rng_applyPerm_perm _ _
      have hlenp := hpermj.length_eq
      have hatj := hat j h₁
      have hcj : (classCounts labels).getD j 0
          = labels.count ((classesOf labels)[j]) := by
        unfold classCounts
        rw [getD_map_of_lt _ (classesOf labels) 0 0 j h₁,
          List.getD_eq_getElem _ 0 h₁]
      rw [hcj, List.getD_eq_getElem _ 0 hj1,
        List.getD_eq_getElem _ 0 hj2] at hatj
      have heq := take_append_dropTake nAlloc[j] tAlloc[j]
        (applyPerm (rngPerm (mix seed ((classesOf labels)[j]))
          (indicesOf labels ((classesOf labels)[j])).length)
          (indicesOf labels ((classesOf labels)[j])))
        (by rw [hlenp, length_indicesOf]; exact hatj)
      rw [heq]
      exact hpermj
  have step3 := flatten_perm_of_forall₂ _ _ step2
  have step4 := flatten_filter_perm (fun i => labels.getD i 0)
    (classesOf labels) (List.range labels.length) (classesOf_nodup labels)
    (fun x hx => mem_classesOf (getD_mem_of_lt (List.mem_range.mp hx)))
  exact step1.trans (step3.trans step4)

theorem stratIndices_append_perm (seed : Nat) (labels : List Nat)
    (nTest : Nat) (hle : nTest ≤ labels.length) :
    ((stratIndices seed labels (labels.length - nTest) nTest).1
      ++ (stratIndices seed labels (labels.length - nTest) nTest).2).Perm
      (List.range labels.length) := by
  rcases Nat.eq_zero_or_pos labels.length with h0 | hpos
  · have hl : labels = [] := List.length_eq_zero.mp h0
    have ht : nTest = 0 := by omega
    subst hl
    subst ht
    exact List.Perm.refl []
  · have hsum : (classCounts labels).sum = labels.length :=
      sum_classCounts labels
    have hT : 0 < (classCounts labels).sum := by
      rw [hsum]
      exact hpos
    have hcslen : (classCounts labels).length = (classesOf labels).length :=
      List.length_map _ _
    set counts := classCounts labels with hcounts
    set nAlloc := approximateMode counts (labels.length - nTest) with hnA
    have hlenA : nAlloc.length = counts.length := approximateMode_length _ _
    have hsumA : nAlloc.sum = labels.length - nTest :=
      approximateMode_sum _ _ hT
    have hleA : ∀ j, j < counts.length →
        nAlloc.getD j 0 ≤ counts.getD j 0 := by
      intro j hj
      refine approximateMode_le_counts _ _ ?_ j hj
      rw [hsum]
      omega
    set rem := List.zipWith (fun c a => c - a) counts nAlloc with hrem
    have hremlen : rem.length = counts.length := by
      rw [hrem, List.length_zipWith, hlenA]
      simp
    have hremsum : rem.sum = nTest := by
      obtain ⟨h1, h2⟩ := sum_zipWith_sub counts nAlloc hlenA hleA
      rw [hrem, h1, hsumA, hsum]
      omega
    set tAlloc := approximateMode rem nTest with htA
    have htA_eq : tAlloc = rem := by
      rw [htA, ← hremsum]
      exact approximateMode_sum_self rem
    have hlenT : tAlloc.length = counts.length := by
      rw [htA_eq, hremlen]
    have hat : ∀ j, j < (classesOf labels).length →
        nAlloc.getD j 0 + tAlloc.getD j 0 = counts.getD j 0 := by
      intro j hj
      have hj' : j < counts.length := by
        rw [hcslen]
        exact hj
      have htj : tAlloc.getD j 0 = counts.getD j 0 - nAlloc.getD j 0 := by
        rw [htA_eq, hrem]
        have hjr : j < (List.zipWith (fun c a => c - a) counts nAlloc).length := by
          rw [← hrem, hremlen]
          exact hj'
        have hjA : j < nAlloc.length := by
          rw [hlenA]
          exact hj'
        rw [List.getD_eq_getElem _ 0 hjr, List.getElem_zipWith,
          List.getD_eq_getElem _ 0 hj', List.getD_eq_getElem _ 0 hjA]
      rw [htj]
      have := hleA j hj'
      omega
    have hparts := parts_append_perm seed labels nAlloc tAlloc
      (by rw [hlenA, hcslen]) (by rw [hlenT, hcslen]) hat
    have a1 := rng_applyPerm_perm (mix seed 1000003)
      ((((classesOf labels).zip (nAlloc.zip tAlloc)).map
        (classPart seed labels)).map Prod.fst).flatten
    have a2 := rng_applyPerm_perm (mix seed 1000033)
      ((((classesOf labels).zip (nAlloc.zip tAlloc)).map
        (classPart seed labels)).map Prod.snd).flatten
    exact (a1.append a2).trans hparts

theorem dfLabels_length (df : DataFrame) :
    (dfLabels df).length = df.rows.length := by
  unfold dfLabels dfLabelsOpt DataFrame.getCol
  cases df.colIdx "median_income" <;> simp

theorem classesOf_length_pos {labels : List Nat} (h : labels ≠ []) :
    0 < (classesOf labels).length := by
  unfold classesOf
  rw [List.length_insertionSort, List.length_pos]
  intro hd
  exact h ((List.dedup_eq_nil labels).mp hd)

theorem selectRows_length (df : DataFrame) (idx : List Nat) :
    (df.selectRows idx).rows.length = idx.length := by
  simp [DataFrame.selectRows]

theorem dropCol_rows_length (df : DataFrame) (c : String) :
    (df.dropCol c).rows.length = df.rows.length := by
  unfold DataFrame.dropCol
  cases df.colIdx c <;> simp

/-- Inversion on a successful `_split`: the returned frames are the two
index selections (with the derived column dropped), and the two index
lists together are a permutation of all record positions. -/
theorem splitDF_ok_inv (lb : Bool) (seed : Nat) (df : DataFrame) (ts : Rat)
    (tr te : DataFrame) (h : splitDF lb seed df ts = .ok (tr, te)) :
    tr = ((df.assignCol "income_range"
        ((dfLabelsOpt df).map (fun l => l.map (fun i => mkRat i 1)))).selectRows
        (splitIdxOf seed df ts).1).dropCol "income_range" ∧
    te = ((df.assignCol "income_range"
        ((dfLabelsOpt df).map (fun l => l.map (fun i => mkRat i 1)))).selectRows
        (splitIdxOf seed df ts).2).dropCol "income_range" ∧
    ((splitIdxOf seed df ts).1 ++ (splitIdxOf seed df ts).2).Perm
      (List.range df.rows.length) := by
  unfold splitDF at h
  split_ifs at h with h1 h2 h3 h4 h5 h6 h7
  all_goals try exact Except.noConfusion h
  injection h with h'
  rw [Prod.ext_iff] at h'
  obtain ⟨htr, hte⟩ := h'
  have hlab : (dfLabels df).length = df.rows.length := dfLabels_length df
  have hne : dfLabels df ≠ [] := by
    intro hd
    rw [← List.length_eq_zero, hlab] at hd
    exact h3 hd
  have hk := classesOf_length_pos hne
  push_neg at h6
  have hle : nTestOf df.rows.length ts ≤ (dfLabels df).length := by
    rw [hlab]
    omega
  have hP := stratIndices_append_perm seed (dfLabels df)
    (nTestOf df.rows.length ts) hle
  rw [hlab] at hP
  exact ⟨htr.symm, hte.symm, hP⟩

/-- C2 counterexample: the bucket-labelling step does *not* give every
real value a bucket label.  `pd.cut`'s lowest bin edge is `0`, not `-∞`:
the values `0` and `-3` are at or below the first breakpoint yet receive
no label at all (NaN), while the claim says the leftmost bucket catches
them. -/
theorem C2_cex :
    cutLabel (some 0) = none ∧ cutLabel (some (-3)) = none ∧
    (0 : Rat) ≤ mkRat 3 2 ∧ (-3 : Rat) ≤ mkRat 3 2 := by
  refine ⟨by decide, by decide, by decide, by decide⟩

/-- C2 (amended): every record whose `median_income` exceeds the lowest
bin edge `0` is assigned a bucket label in `[0, 5)`; among those, the
leftmost bucket `(0, 1.5]` catches every value at or below the first
interior breakpoint `1.5`, and the rightmost bucket catches every value
above the last breakpoint `6` (unbounded above).  Values at or below `0`
receive no label (NaN). -/
theorem C2_buckets (v : Rat) :
    (0 < v → ∃ i, i < 5 ∧ cutLabel (some v) = some i) ∧
    (0 < v → v ≤ mkRat 3 2 → cutLabel (some v) = some 0) ∧
    (6 < v → cutLabel (some v) = some 4) ∧
    (v ≤ 0 → cutLabel (some v) = none) := by
  have e1 : (mkRat 3 2 : Rat) < 3 := by decide
  have e2 : (3 : Rat) < mkRat 9 2 := by decide
  have e3 : (mkRat 9 2 : Rat) < 6 := by decide
  refine ⟨fun h0 => ?_, fun h0 hle => ?_, fun h6 => ?_, fun hle => ?_⟩ <;>
    simp only [cutLabel] <;> split_ifs with h1 h2 h3 h4 h5 <;>
    first
      | exact ⟨0, by norm_num, rfl⟩
      | exact ⟨1, by norm_num, rfl⟩
      | exact ⟨2, by norm_num, rfl⟩
      | exact ⟨3, by norm_num, rfl⟩
      | exact ⟨4, by norm_num, rfl⟩
      | rfl
      | linarith

/-- Witness for `C2_buckets` at the values 1, 7 and -1. -/
theorem C2_buckets_witness :
    (∃ i, i < 5 ∧ cutLabel (some 1) = some i) ∧
    cutLabel (some 1) = some 0 ∧
    cutLabel (some 7) = some 4 ∧
    cutLabel (some (-1)) = none :=
  ⟨(C2_buckets 1).1 (by decide),
   (C2_buckets 1).2.1 (by decide) (by decide),
   (C2_buckets 7).2.2.1 (by decide),
   (C2_buckets (-1)).2.2.2 (by decide)⟩

/-! ## C3 — per-bucket allocation -/

/-- C3 counterexample: the split does *not* allocate
`round(test_fraction * bucket_size)` records of each bucket to test.  For
5 records in a single bucket and `test_fraction = 1/2`, the source
allocates `ceil(0.5 * 5) = 3` records to test (train gets 2), while the
claim's round-half-to-even gives `round(2.5) = 2`. -/
theorem C3_cex :
    (splitIdxOf 43 df5 (mkRat 1 2)).2.length = 3 ∧
    specRound (mkRat 5 2) = 2 ∧
    (mkRat 1 2 : Rat) * 5 = mkRat 5 2 ∧
    splitDF true 43 df5 (mkRat 1 2)
      = .ok (⟨["median_income"], [[some 1], [some 1]]⟩,
             ⟨["median_income"], [[some 1], [some 1], [some 1]]⟩) := by
  refine ⟨by decide, by decide, by norm_num [Rat.mkRat_eq_div], by decide⟩

/-- C3 (amended): the per-bucket test allocation is sklearn's two-stage
largest-remainder apportionment of `n_test = ceil(test_fraction * n)`
over the buckets (not `round(test_fraction * bucket_size)` in general);
for the spec's 7-record example with bucket sizes `{2,3,2}` and
`test_fraction = 0.4` the two coincide: the test partition receives
exactly one record from each bucket — 3 records in all — and the train
partition receives 4. -/
theorem C3_example :
    classCounts (dfLabels df7) = [2, 3, 2] ∧
    (splitIdxOf 43 df7 (mkRat 2 5)).1.length = 4 ∧
    (splitIdxOf 43 df7 (mkRat 2 5)).2.length = 3 ∧
    (splitIdxOf 43 df7 (mkRat 2 5)).2.countP (fun i => (dfLabels df7).getD i 0 == 1) = 1 ∧
    (splitIdxOf 43 df7 (mkRat 2 5)).2.countP (fun i => (dfLabels df7).getD i 0 == 2) = 1 ∧
    (splitIdxOf 43 df7 (mkRat 2 5)).2.countP (fun i => (dfLabels df7).getD i 0 == 3) = 1 := by
  decide

/-! ## C4 — determinism in the seed -/

/-- C4: the split is deterministic in the seed: two runs of `_split` on
the same dataset with the same seed and parameters (the source hard-codes
`random_state=43`) return identical train and test partitions. -/
theorem C4_deterministic (s₁ s₂ : Nat) (lb : Bool) (df : DataFrame) (ts : Rat)
    (h : s₁ = s₂) : splitDF lb s₁ df ts = splitDF lb s₂ df ts := by
  rw [h]

/-- Witness for `C4_deterministic` at seed 43 on the example dataset. -/
theorem C4_deterministic_witness :
    splitDF true 43 df7 (mkRat 2 5) = splitDF true 43 df7 (mkRat 2 5) :=
  C4_deterministic 43 43 true df7 (mkRat 2 5) rfl

/-! ## C6 — test_fraction validation -/

/-- C6: with the stratification column present, the split fails with
`InvalidArgument` whenever `test_fraction` is not strictly between 0
and 1, and whenever `0 < test_fraction < 1` it never fails on that
ground (any failure is a different error). -/
theorem C6_test_fraction (lb : Bool) (seed : Nat) (df : DataFrame) (ts : Rat)
    (hcol : ¬ df.colIdx "median_income" = none) :
    (¬(0 < ts ∧ ts < 1) → splitDF lb seed df ts = .error .invalidArgument) ∧
    ((0 < ts ∧ ts < 1) → splitDF lb seed df ts ≠ .error .invalidArgument) := by
  constructor
  · intro h
    unfold splitDF
    rw [if_neg hcol, if_pos h]
  · intro h
    unfold splitDF
    rw [if_neg hcol, if_neg (not_not_intro h)]
    split_ifs <;> simp

/-- Witness for `C6_test_fraction`: `test_fraction = 3/2` is rejected as
`InvalidArgument`; `test_fraction = 2/5` never produces that error. -/
theorem C6_test_fraction_witness :
    splitDF true 43 df7 (mkRat 3 2) = .error .invalidArgument ∧
    splitDF true 43 df7 (mkRat 2 5) ≠ .error .invalidArgument :=
  ⟨(C6_test_fraction true 43 df7 (mkRat 3 2) (by decide)).1 (by norm_num),
   (C6_test_fraction true 43 df7 (mkRat 2 5) (by decide)).2 ⟨by norm_num, by norm_num⟩⟩

/-! ## C7 — missing input file -/

/-- C7: at the failing input — the module imported as a library (so the
module-scope name `logging` is unbound), input file absent, download
disabled — `_load_data` raises `NameError` at its `logging.error` call
before it can re-raise the `FileNotFoundError` its own docstring
documents.  When `logging` is bound (script execution) the documented
`FileNotFoundError` (the spec's MissingFile) is raised.  In both cases
the error propagates to the caller and no train/test output is
produced. -/
theorem C7_missing_file :
    loadData false (fun _ => none) "data" "housing.csv"
      = .error (.nameError "logging") ∧
    loadData true (fun _ => none) "data" "housing.csv"
      = .error (.fileNotFound "data/housing.csv") ∧
    splitOp false (fun _ => none) "data" "housing.csv" (mkRat 1 5)
      = .error (.nameError "logging") ∧
    splitOp true (fun _ => none) "data" "housing.csv" (mkRat 1 5)
      = .error (.fileNotFound "data/housing.csv") :=
  ⟨rfl, rfl, rfl, rfl⟩

/-! ## C9 — normalize flag has no effect -/

/-- C9: the fitted model, the test predictions and both printed metrics
are independent of the `--normalize` flag: with every library routine
(including the unseeded `train_test_split`'s hidden randomness) held
fixed, the script result for any two values of the flag coincides,
because the scaled matrix is rebound to `X` only after
`X_train`/`X_test` were materialised and is never read again. -/
theorem C9_normalize_independent (μ : Type)
    (split : List (List Rat) → List Rat →
      List (List Rat) × List (List Rat) × List Rat × List Rat)
    (fit : List (List Rat) → List Rat → μ)
    (predict : μ → List (List Rat) → List Rat)
    (scale : List (List Rat) → List (List Rat))
    (X : List (List Rat)) (y : List Rat) (n₁ n₂ : Bool) :
    trainScript μ split fit predict scale X y n₁
      = trainScript μ split fit predict scale X y n₂ := rfl

/-! ## C10 — unbound `logging` name -/

/-- C10 counterexample: not *every* library-mode invocation of the three
methods reaches a `NameError`: with `logging` unbound but the input file
present, `_load_data` completes normally, because its only `logging`
call sits on the missing-file path. -/
theorem C10_cex :
    loadData false (fun p => if p = "data/housing.csv" then some df7 else none)
      "data" "housing.csv" = .ok df7 := by
  decide

/-- C10 (amended): `logging` is referenced by `_download_data`,
`_load_data` and `_split` but imported only inside the `__main__` block,
so when `DataLoader` is used as an imported library (`logging` unbound):
`_download_data` always raises `NameError` (it logs unconditionally);
`_split` never returns a result (it logs before returning); and
`_load_data` raises `NameError` exactly on its missing-file path, in
place of the specified `FileNotFoundError`. -/
theorem C10_logging (fe : Bool) (fs : String → Option DataFrame)
    (ip file : String) (seed : Nat) (df : DataFrame) (ts : Rat)
    (p : DataFrame × DataFrame)
    (hmiss : fs (ip ++ "/" ++ file) = none) :
    downloadData false fe = .error (.nameError "logging") ∧
    loadData false fs ip file = .error (.nameError "logging") ∧
    splitDF false seed df ts ≠ .ok p := by
  refine ⟨rfl, ?_, ?_⟩
  · unfold loadData
    rw [hmiss]
    rfl
  · unfold splitDF
    split_ifs <;> simp_all

/-- Witness for `C10_logging` on an empty filesystem. -/
theorem C10_logging_witness :
    downloadData false true = .error (.nameError "logging") ∧
    loadData false (fun _ => none) "data" "housing.csv"
      = .error (.nameError "logging") ∧
    splitDF false 43 df7 (mkRat 2 5) ≠ .ok (df7, df7) :=
  C10_logging true (fun _ => none) "data" "housing.csv" 43 df7 (mkRat 2 5)
    (df7, df7) rfl

/-! ## C5 — column preservation (counterexample part) -/

/-- C5 counterexample: the output column set does *not* equal the input
column set for every input: a dataset that already carries an
`income_range` column has it silently overwritten by the derived bucket
labels and then dropped, so both outputs lose that column. -/
theorem C5_cex :
    dfDup.columns = ["median_income", "income_range"] ∧
    trainColumns (splitDF true 43 dfDup (mkRat 1 5)) = some ["median_income"] := by
  refine ⟨rfl, by decide⟩

/-! ## C1 — the split partitions the dataset -/

/-- C1: every successful `_split` returns two frames whose sizes sum to
the input size, obtained by selecting two disjoint index lists (no record
position appears on both sides). -/
theorem C1_split_partition (lb : Bool) (seed : Nat) (df : DataFrame)
    (ts : Rat) (tr te : DataFrame)
    (h : splitDF lb seed df ts = .ok (tr, te)) :
    tr.rows.length + te.rows.length = df.rows.length ∧
    (splitIdxOf seed df ts).1.Disjoint (splitIdxOf seed df ts).2 ∧
    tr.rows.length = (splitIdxOf seed df ts).1.length ∧
    te.rows.length = (splitIdxOf seed df ts).2.length := by
  obtain ⟨htr, hte, hP⟩ := splitDF_ok_inv lb seed df ts tr te h
  have hlen1 : tr.rows.length = (splitIdxOf seed df ts).1.length := by
    rw [htr, dropCol_rows_length, selectRows_length]
  have hlen2 : te.rows.length = (splitIdxOf seed df ts).2.length := by
    rw [hte, dropCol_rows_length, selectRows_length]
  have hsumlen := hP.length_eq
  rw [List.length_append, List.length_range] at hsumlen
  have hnd : ((splitIdxOf seed df ts).1 ++ (splitIdxOf seed df ts).2).Nodup :=
    hP.nodup_iff.mpr (List.nodup_range _)
  have hdisj := (List.nodup_append.mp hnd).2.2
  exact ⟨by omega, hdisj, hlen1, hlen2⟩

/-- Witness for `C1_split_partition` on the spec's 7-record example. -/
theorem C1_split_partition_witness :
    ((⟨["median_income"], [[some 5], [some 2], [some (mkRat 7 2)],
        [some 4]]⟩ : DataFrame).rows.length
      + ((⟨["median_income"], [[some 3], [some (mkRat 9 2)],
        [some 6]]⟩ : DataFrame)).rows.length = df7.rows.length) ∧
    (splitIdxOf 43 df7 (mkRat 2 5)).1.Disjoint
      (splitIdxOf 43 df7 (mkRat 2 5)).2 ∧
    ((⟨["median_income"], [[some 5], [some 2], [some (mkRat 7 2)],
        [some 4]]⟩ : DataFrame)).rows.length
      = (splitIdxOf 43 df7 (mkRat 2 5)).1.length ∧
    ((⟨["median_income"], [[some 3], [some (mkRat 9 2)],
        [some 6]]⟩ : DataFrame)).rows.length
      = (splitIdxOf 43 df7 (mkRat 2 5)).2.length :=
  C1_split_partition true 43 df7 (mkRat 2 5) _ _ (by decide)

/-! ## C5 — column preservation (amended part) -/

theorem eraseIdx_append_singleton {α : Type} (l : List α) (x : α) :
    (l ++ [x]).eraseIdx l.length = l := by
  rw [List.eraseIdx_append_of_length_le (Nat.le_refl _), Nat.sub_self]
  simp

theorem findIdx?_append_singleton (l : List String) (c : String)
    (h : ¬ c ∈ l) : (l ++ [c]).findIdx? (· == c) = some l.length := by
  induction l with
  | nil => simp
  | cons a t ih =>
    have ha : (a == c) = false := by
      simp only [beq_eq_false_iff_ne]
      intro he
      exact h (he ▸ List.mem_cons_self a t)
    rw [List.cons_append, List.findIdx?_cons, ha]
    rw [if_neg (by simp)]
    rw [List.findIdx?_succ, ih (fun hm => h (List.mem_cons_of_mem a hm))]
    rfl

theorem colIdx_none_of_not_mem {df : DataFrame} {c : String}
    (h : ¬ c ∈ df.columns) : df.colIdx c = none := by
  unfold DataFrame.colIdx
  rw [List.findIdx?_eq_none_iff]
  intro x hx
  simp only [beq_eq_false_iff_ne]
  intro he
  exact h (he ▸ hx)

theorem dropCol_of_colIdx {df : DataFrame} {c : String} {k : Nat}
    (h : df.colIdx c = some k) :
    df.dropCol c = ⟨df.columns.eraseIdx k,
      df.rows.map (fun r => r.eraseIdx k)⟩ := by
  unfold DataFrame.dropCol
  rw [h]

theorem assignCol_of_colIdx_none {df : DataFrame} {c : String}
    (h : df.colIdx c = none) (vals : List Cell) :
    df.assignCol c vals = ⟨df.columns ++ [c],
      (df.rows.zip vals).map (fun p => p.1 ++ [p.2])⟩ := by
  unfold DataFrame.assignCol
  rw [h]

theorem dfLabelsOpt_length (df : DataFrame) :
    (dfLabelsOpt df).length = df.rows.length := by
  unfold dfLabelsOpt DataFrame.getCol
  cases df.colIdx "median_income" <;> simp

/-- C5 (amended): for every well-formed input that does not already carry
a column named `income_range`, a successful split returns frames with
exactly the input's column set — the derived `income_range` label is
dropped — and every output row is one of the input's rows, unaltered.
(When the input does carry an `income_range` column, that column is
overwritten and dropped: see the counterexample.) -/
theorem C5_columns (lb : Bool) (seed : Nat) (df : DataFrame) (ts : Rat)
    (tr te : DataFrame) (hwf : df.WF)
    (hnew : ¬ "income_range" ∈ df.columns)
    (h : splitDF lb seed df ts = .ok (tr, te)) :
    tr.columns = df.columns ∧ te.columns = df.columns ∧
    (∀ r ∈ tr.rows, r ∈ df.rows) ∧ (∀ r ∈ te.rows, r ∈ df.rows) := by
  obtain ⟨htr, hte, hP⟩ := splitDF_ok_inv lb seed df ts tr te h
  have hnone : df.colIdx "income_range" = none := colIdx_none_of_not_mem hnew
  have hdfL := assignCol_of_colIdx_none hnone
    ((dfLabelsOpt df).map (fun l => l.map (fun i => mkRat i 1)))
  have hvlen : ((dfLabelsOpt df).map
      (fun l => l.map (fun i => mkRat i 1))).length = df.rows.length := by
    rw [List.length_map]
    exact dfLabelsOpt_length df
  have hfind : (df.columns ++ ["income_range"]).findIdx?
      (· == "income_range") = some df.columns.length :=
    findIdx?_append_singleton df.columns "income_range" hnew
  have hselCols : ∀ (idx : List Nat),
      ((df.assignCol "income_range" ((dfLabelsOpt df).map
        (fun l => l.map (fun i => mkRat i 1)))).selectRows idx).colIdx
        "income_range" = some df.columns.length := by
    intro idx
    rw [hdfL]
    unfold DataFrame.selectRows DataFrame.colIdx
    exact hfind
  have hrow : ∀ i, i < df.rows.length →
      ((((df.rows.zip ((dfLabelsOpt df).map
        (fun l => l.map (fun i => mkRat i 1)))).map
        (fun p => p.1 ++ [p.2])).getD i []).eraseIdx df.columns.length)
      = df.rows.getD i [] := by
    intro i hi
    have hzl : i < (df.rows.zip ((dfLabelsOpt df).map
        (fun l => l.map (fun i => mkRat i 1)))).length := by
      rw [List.length_zip, hvlen]
      omega
    rw [List.getD_eq_getElem _ [] (by rw [List.length_map]; exact hzl),
      List.getElem_map, List.getElem_zip]
    have hlen : (df.rows[i]).length = df.columns.length :=
      hwf _ (List.getElem_mem hi)
    rw [List.getD_eq_getElem _ [] hi]
    rw [← hlen]
    exact eraseIdx_append_singleton _ _
  have hmain : ∀ (idx : List Nat) (fr : DataFrame),
      fr = ((df.assignCol "income_range" ((dfLabelsOpt df).map
        (fun l => l.map (fun i => mkRat i 1)))).selectRows idx).dropCol
        "income_range" →
      (∀ i ∈ idx, i < df.rows.length) →
      fr.columns = df.columns ∧ ∀ r ∈ fr.rows, r ∈ df.rows := by
    intro idx fr hfr hidx
    rw [dropCol_of_colIdx (hselCols idx)] at hfr
    constructor
    · rw [hfr]
      show (((df.assignCol "income_range" _).selectRows idx).columns).eraseIdx
        df.columns.length = df.columns
      rw [hdfL]
      unfold DataFrame.selectRows
      exact eraseIdx_append_singleton _ _
    · intro r hr
      rw [hfr] at hr
      simp only at hr
      obtain ⟨r0, hr0, hre⟩ := List.mem_map.mp hr
      obtain ⟨i, hiidx, hri⟩ := List.mem_map.mp
        (by
          have : ((df.assignCol "income_range" ((dfLabelsOpt df).map
            (fun l => l.map (fun i => mkRat i 1)))).selectRows idx).rows
              = idx.map (fun i => (df.assignCol "income_range"
                ((dfLabelsOpt df).map
                  (fun l => l.map (fun i => mkRat i 1)))).rows.getD i []) := rfl
          rw [this] at hr0
          exact hr0)
      have hlt := hidx i hiidx
      rw [← hre, ← hri]
      have hrows : (df.assignCol "income_range" ((dfLabelsOpt df).map
          (fun l => l.map (fun i => mkRat i 1)))).rows
          = (df.rows.zip ((dfLabelsOpt df).map
            (fun l => l.map (fun i => mkRat i 1)))).map
            (fun p => p.1 ++ [p.2]) := by
        rw [hdfL]
      rw [hrows, hrow i hlt]
      exact getD_mem_of_lt hlt
  have hlt1 : ∀ i ∈ (splitIdxOf seed df ts).1, i < df.rows.length := by
    intro i hi
    exact List.mem_range.mp (hP.mem_iff.mp (List.mem_append_left _ hi))
  have hlt2 : ∀ i ∈ (splitIdxOf seed df ts).2, i < df.rows.length := by
    intro i hi
    exact List.mem_range.mp (hP.mem_iff.mp (List.mem_append_right _ hi))
  obtain ⟨hc1, hm1⟩ := hmain _ tr htr hlt1
  obtain ⟨hc2, hm2⟩ := hmain _ te hte hlt2
  exact ⟨hc1, hc2, hm1, hm2⟩

/-- Witness for `C5_columns` on the spec's 7-record example. -/
theorem C5_columns_witness :
    ((⟨["median_income"], [[some 5], [some 2], [some (mkRat 7 2)],
        [some 4]]⟩ : DataFrame)).columns = df7.columns ∧
    ((⟨["median_income"], [[some 3], [some (mkRat 9 2)],
        [some 6]]⟩ : DataFrame)).columns = df7.columns ∧
    (∀ r ∈ ((⟨["median_income"], [[some 5], [some 2], [some (mkRat 7 2)],
        [some 4]]⟩ : DataFrame)).rows, r ∈ df7.rows) ∧
    (∀ r ∈ ((⟨["median_income"], [[some 3], [some (mkRat 9 2)],
        [some 6]]⟩ : DataFrame)).rows, r ∈ df7.rows) :=
  C5_columns true 43 df7 (mkRat 2 5) _ _ (by decide) (by decide) (by decide)

/-! ## C8 — per-bucket test counts -/

theorem classPart_snd_label (seed : Nat) (labels : List Nat)
    (p : Nat × Nat × Nat) :
    ∀ x ∈ (classPart seed labels p).2, labels.getD x 0 = p.1 := by
  intro x hx
  unfold classPart at hx
  have hx2 := List.take_subset _ _ hx
  have hx3 := List.drop_subset _ _ hx2
  have hx4 := (rng_applyPerm_perm (mix seed p.1)
    (indicesOf labels p.1)).mem_iff.mp hx3
  unfold indicesOf at hx4
  have := (List.mem_filter.mp hx4).2
  simpa using this

theorem classPart_snd_length (seed : Nat) (labels : List Nat)
    (p : Nat × Nat × Nat)
    (hlen : p.2.1 + p.2.2 = (indicesOf labels p.1).length) :
    (classPart seed labels p).2.length = p.2.2 := by
  unfold classPart
  rw [List.length_take, List.length_drop]
  have hplen : (applyPerm (rngPerm (mix seed p.1)
      (indicesOf labels p.1).length) (indicesOf labels p.1)).length
      = (indicesOf labels p.1).length :=
    (rng_applyPerm_perm _ _).length_eq
  rw [hplen]
  omega

theorem countP_test_parts (seed : Nat) (labels : List Nat)
    (P : List (Nat × Nat × Nat)) (c : Nat)
    (hlen : ∀ p ∈ P, p.2.1 + p.2.2 = (indicesOf labels p.1).length) :
    (((P.map (classPart seed labels)).map Prod.snd).flatten).countP
      (fun x => labels.getD x 0 == c)
      = (P.map (fun p => if p.1 = c then p.2.2 else 0)).sum := by
  induction P with
  | nil => rfl
  | cons p P ih =>
    simp only [List.map_cons, List.flatten_cons, List.countP_append,
      List.sum_cons]
    have hpart : ((classPart seed labels p).2).countP
        (fun x => labels.getD x 0 == c)
        = if p.1 = c then p.2.2 else 0 := by
      by_cases hc : p.1 = c
      · rw [if_pos hc]
        have hall : ((classPart seed labels p).2).countP
            (fun x => labels.getD x 0 == c)
            = ((classPart seed labels p).2).length := by
          rw [List.countP_eq_length]
          intro x hx
          have hl := classPart_snd_label seed labels p x hx
          simp only [hl, hc, beq_self_eq_true]
        rw [hall]
        exact classPart_snd_length seed labels p
          (hlen p (List.mem_cons_self p P))
      · rw [if_neg hc]
        rw [List.countP_eq_zero]
        intro x hx
        have hl := classPart_snd_label seed labels p x hx
        simp only [hl, beq_iff_eq]
        exact hc
    rw [hpart, ih (fun q hq => hlen q (List.mem_cons_of_mem p hq))]

theorem sum_ite_of_nodup (P : List (Nat × Nat × Nat)) (c a t : Nat)
    (hnd : (P.map Prod.fst).Nodup) (hmem : (c, a, t) ∈ P) :
    (P.map (fun p => if p.1 = c then p.2.2 else 0)).sum = t := by
  induction P with
  | nil => cases hmem
  | cons q P ih =>
    rw [List.map_cons, List.sum_cons]
    rw [List.map_cons, List.nodup_cons] at hnd
    rcases List.mem_cons.mp hmem with he | hm
    · have hq1 : q.1 = c := by rw [← he]
      have hq2 : q.2.2 = t := by rw [← he]
      have h0 : (P.map (fun p => if p.1 = c then p.2.2 else 0)).sum = 0 := by
        apply List.sum_eq_zero
        intro x hx
        obtain ⟨r, hr, rfl⟩ := List.mem_map.mp hx
        rw [if_neg]
        intro he2
        refine hnd.1 ?_
        rw [hq1]
        exact he2 ▸ List.mem_map_of_mem Prod.fst hr
      rw [h0, if_pos hq1, hq2]
      omega
    · have hq : ¬ (q.1 = c) := by
        intro he2
        refine hnd.1 ?_
        rw [he2]
        exact List.mem_map_of_mem Prod.fst hm
      rw [if_neg hq, ih hnd.2 hm]
      omega

theorem div_mul_bounds (q n : Nat) (hn : 0 < n) :
    (q / n) * n ≤ q ∧ q < (q / n + 1) * n := by
  constructor
  · exact Nat.div_mul_le_self q n
  · have h1 := Nat.div_add_mod q n
    have h2 := Nat.mod_lt q hn
    obtain ⟨D, hD⟩ : ∃ D, q / n = D := ⟨_, rfl⟩
    rw [hD] at h1 ⊢
    obtain ⟨R, hR⟩ : ∃ R, q % n = R := ⟨_, rfl⟩
    rw [hR] at h1 h2
    rw [Nat.add_mul, Nat.one_mul, Nat.mul_comm D n]
    obtain ⟨M, hM⟩ : ∃ M, n * D = M := ⟨_, rfl⟩
    rw [hM] at h1 ⊢
    omega

theorem nTestOf_eq (n : Nat) (ts : Rat) (hts : 0 ≤ ts) :
    (nTestOf n ts : Int) = ⌈ts * (n : Rat)⌉ := by
  have hnum : 0 ≤ ts.num * n :=
    mul_nonneg (Rat.num_nonneg.mpr hts) (Int.ofNat_nonneg n)
  have h1 : ts * (n : Rat)
      = ((ts.num * (n : Int) : Int) : Rat) / ((ts.den : Nat) : Rat) := by
    have h := Rat.num_div_den ts
    nth_rewrite 1 [← h]
    push_cast
    ring
  have hfl : ⌊-(((ts.num * (n : Int) : Int) : Rat) / ((ts.den : Nat) : Rat))⌋
      = (-(ts.num * n)) / (ts.den : Int) := by
    rw [← Rat.floor_intCast_div_natCast (-(ts.num * n)) ts.den]
    congr 1
    push_cast
    ring
  have hcn : ∀ a : Rat, ⌈a⌉ = -⌊-a⌋ := fun a => by
    rw [← Int.ceil_neg, neg_neg]
  have h2 : ⌈ts * (n : Rat)⌉ = -((-(ts.num * n)) / (ts.den : Int)) := by
    rw [h1, hcn, hfl]
  have hnn : 0 ≤ -((-(ts.num * n)) / (ts.den : Int)) := by
    have hd : (0 : Int) < (ts.den : Int) := by exact_mod_cast ts.den_pos
    have hle : (-(ts.num * n)) / (ts.den : Int) ≤ 0 / (ts.den : Int) :=
      Int.ediv_le_ediv hd (by omega)
    rw [Int.zero_ediv] at hle
    omega
  unfold nTestOf
  rw [Int.toNat_of_nonneg hnn, h2]

theorem nTestOf_le (n : Nat) (ts : Rat) (h0 : 0 ≤ ts) (h1 : ts ≤ 1) :
    nTestOf n ts ≤ n := by
  have he := nTestOf_eq n ts h0
  have hc : ⌈ts * (n : Rat)⌉ ≤ (n : Int) := by
    refine Int.ceil_le.mpr ?_
    push_cast
    exact mul_le_of_le_one_left (by positivity) h1
  omega

theorem splitDF_ok_guards (lb : Bool) (seed : Nat) (df : DataFrame) (ts : Rat)
    (tr te : DataFrame) (h : splitDF lb seed df ts = .ok (tr, te)) :
    (0 < ts ∧ ts < 1) ∧ 0 < df.rows.length := by
  unfold splitDF at h
  split_ifs at h with h1 h2 h3 h4 h5 h6 h7
  all_goals try exact Except.noConfusion h
  exact ⟨h2, Nat.pos_of_ne_zero h3⟩

theorem frac_bound (n nT fl A cnt : Nat) (ts : Rat)
    (hn : 0 < n) (hcnt : 200 ≤ cnt) (hcn : cnt ≤ n) (hTn : nT ≤ n)
    (hceil1 : ts * (n : Rat) ≤ (nT : Rat))
    (hceil2 : (nT : Rat) < ts * (n : Rat) + 1)
    (hfl1 : fl * n ≤ cnt * (n - nT))
    (hfl2 : cnt * (n - nT) < (fl + 1) * n)
    (hA1 : fl ≤ A) (hA2 : A ≤ fl + 1) (hA3 : A ≤ cnt) :
    |((cnt - A : Nat) : Rat) / (cnt : Rat) - ts| ≤ mkRat 1 100 := by
  have hNq : (0 : Rat) < (n : Rat) := by exact_mod_cast hn
  have hCq : (0 : Rat) < (cnt : Rat) := by
    have hc0 : 0 < cnt := by omega
    exact_mod_cast hc0
  have hCne : ((cnt : Rat)) ≠ 0 := ne_of_gt hCq
  have hC0 : (0 : Rat) ≤ (cnt : Rat) := le_of_lt hCq
  have hq1 : (fl : Rat) * (n : Rat) ≤ (cnt : Rat) * ((n : Rat) - (nT : Rat)) := by
    have h' : ((fl * n : Nat) : Rat) ≤ ((cnt * (n - nT) : Nat) : Rat) := by
      exact_mod_cast hfl1
    push_cast [Nat.cast_sub hTn] at h'
    exact h'
  have hq2 : (cnt : Rat) * ((n : Rat) - (nT : Rat))
      < ((fl : Rat) + 1) * (n : Rat) := by
    have h' : ((cnt * (n - nT) : Nat) : Rat) < (((fl + 1) * n : Nat) : Rat) := by
      exact_mod_cast hfl2
    push_cast [Nat.cast_sub hTn] at h'
    exact h'
  have hCn : (cnt : Rat) ≤ (n : Rat) := by exact_mod_cast hcn
  have hmono1 : (cnt : Rat) * ((n : Rat) - (nT : Rat))
      ≤ (cnt : Rat) * ((n : Rat) - ts * (n : Rat)) :=
    mul_le_mul_of_nonneg_left (by linarith) hC0
  have hF : (fl : Rat) ≤ (cnt : Rat) * (1 - ts) := by
    refine le_of_mul_le_mul_right ?_ hNq
    calc (fl : Rat) * (n : Rat)
        ≤ (cnt : Rat) * ((n : Rat) - (nT : Rat)) := hq1
      _ ≤ (cnt : Rat) * ((n : Rat) - ts * (n : Rat)) := hmono1
      _ = (cnt : Rat) * (1 - ts) * (n : Rat) := by ring
  have hmono2 : (cnt : Rat) * ((n : Rat) - ts * (n : Rat) - 1)
      ≤ (cnt : Rat) * ((n : Rat) - (nT : Rat)) :=
    mul_le_mul_of_nonneg_left (by linarith) hC0
  have hF1 : (cnt : Rat) * (1 - ts) - 2 < (fl : Rat) := by
    have hkey : ((cnt : Rat) * (1 - ts) - 2) * (n : Rat)
        < (fl : Rat) * (n : Rat) := by
      nlinarith [hmono2, hq2, hCn]
    exact lt_of_mul_lt_mul_right hkey (le_of_lt hNq)
  have haQ1 : (A : Rat) ≤ (cnt : Rat) * (1 - ts) + 1 := by
    have h2 : (A : Rat) ≤ (fl : Rat) + 1 := by exact_mod_cast hA2
    linarith
  have haQ2 : (cnt : Rat) * (1 - ts) - 2 < (A : Rat) := by
    have h1 : (fl : Rat) ≤ (A : Rat) := by exact_mod_cast hA1
    linarith
  have habs : |(cnt : Rat) * (1 - ts) - (A : Rat)| ≤ 2 := by
    rw [abs_le]
    constructor <;> linarith
  have hratio : ((cnt - A : Nat) : Rat) / (cnt : Rat) - ts
      = ((cnt : Rat) * (1 - ts) - (A : Rat)) / (cnt : Rat) := by
    rw [Nat.cast_sub hA3, eq_div_iff hCne, sub_mul, div_mul_cancel₀ _ hCne]
    ring
  have hmk : (mkRat 1 100 : Rat) = 1 / 100 := by norm_num [Rat.mkRat_eq_div]
  rw [hratio, hmk, abs_div, abs_of_pos hCq, div_le_div_iff₀ hCq (by norm_num)]
  have h200 : (200 : Rat) ≤ (cnt : Rat) := by exact_mod_cast hcnt
  linarith [habs]

theorem stratIndices_testCount (seed : Nat) (labels : List Nat)
    (nTest : Nat) (hle : nTest ≤ labels.length) (c : Nat) (hc : c ∈ labels) :
    ∃ A, labels.count c * (labels.length - nTest) / labels.length ≤ A ∧
      A ≤ labels.count c * (labels.length - nTest) / labels.length + 1 ∧
      A ≤ labels.count c ∧
      ((stratIndices seed labels (labels.length - nTest) nTest).2).countP
        (fun x => labels.getD x 0 == c) = labels.count c - A := by
  have hpos : 0 < labels.length := List.length_pos.mpr (List.ne_nil_of_mem hc)
  have hsum : (classCounts labels).sum = labels.length := sum_classCounts labels
  have hT : 0 < (classCounts labels).sum := by
    rw [hsum]
    exact hpos
  have hcslen : (classCounts labels).length = (classesOf labels).length :=
    List.length_map _ _
  set counts := classCounts labels with hcounts
  set nAlloc := approximateMode counts (labels.length - nTest) with hnA
  have hlenA : nAlloc.length = counts.length := approximateMode_length _ _
  have hleA : ∀ i, i < counts.length → nAlloc.getD i 0 ≤ counts.getD i 0 := by
    intro i hi
    refine approximateMode_le_counts _ _ ?_ i hi
    rw [hsum]
    omega
  set rem := List.zipWith (fun x a => x - a) counts nAlloc with hrem
  have hremlen : rem.length = counts.length := by
    rw [hrem, List.length_zipWith, hlenA]
    simp
  have hsumA : nAlloc.sum = labels.length - nTest := approximateMode_sum _ _ hT
  have hremsum : rem.sum = nTest := by
    obtain ⟨h1, h2⟩ := sum_zipWith_sub counts nAlloc hlenA hleA
    rw [hrem, h1, hsumA, hsum]
    omega
  set tAlloc := approximateMode rem nTest with htAdef
  have htA_eq : tAlloc = rem := by
    rw [htAdef, ← hremsum]
    exact approximateMode_sum_self rem
  have hlenT : tAlloc.length = counts.length := by
    rw [htA_eq, hremlen]
  have htj : ∀ i, i < counts.length →
      tAlloc.getD i 0 = counts.getD i 0 - nAlloc.getD i 0 := by
    intro i hi
    have hiA : i < nAlloc.length := by
      rw [hlenA]
      exact hi
    rw [htA_eq, hrem]
    have hir : i < (List.zipWith (fun x a => x - a) counts nAlloc).length := by
      rw [List.length_zipWith, hlenA]
      omega
    rw [List.getD_eq_getElem _ 0 hir, List.getElem_zipWith,
      List.getD_eq_getElem _ 0 hi, List.getD_eq_getElem _ 0 hiA]
  have hci : ∀ i, ∀ hi : i < (classesOf labels).length,
      counts.getD i 0 = labels.count ((classesOf labels)[i]) := by
    intro i hi
    rw [hcounts]
    unfold classCounts
    rw [getD_map_of_lt _ (classesOf labels) 0 0 i hi,
      List.getD_eq_getElem _ 0 hi]
  have hlenP : ∀ p ∈ (classesOf labels).zip (nAlloc.zip tAlloc),
      p.2.1 + p.2.2 = (indicesOf labels p.1).length := by
    intro p hp
    obtain ⟨i, hi, hpi⟩ := List.mem_iff_getElem.mp hp
    have hic : i < (classesOf labels).length := by
      rw [List.length_zip] at hi
      omega
    have hic' : i < counts.length := by
      rw [hcslen]
      exact hic
    have hiA : i < nAlloc.length := by
      rw [hlenA]
      exact hic'
    have hiT : i < tAlloc.length := by
      rw [hlenT]
      exact hic'
    have hiz2 : i < (nAlloc.zip tAlloc).length := by
      rw [List.length_zip]
      omega
    have hz1 : ((classesOf labels).zip (nAlloc.zip tAlloc))[i]
        = ((classesOf labels)[i], (nAlloc.zip tAlloc)[i]) := List.getElem_zip
    have hz2 : (nAlloc.zip tAlloc)[i] = (nAlloc[i], tAlloc[i]) :=
      List.getElem_zip
    rw [hz1, hz2] at hpi
    rw [← hpi]
    show nAlloc[i] + tAlloc[i]
      = (indicesOf labels ((classesOf labels)[i])).length
    rw [length_indicesOf]
    have h1 := htj i hic'
    have h2 := hleA i hic'
    have h3 := hci i hic
    rw [← List.getD_eq_getElem nAlloc 0 hiA,
      ← List.getD_eq_getElem tAlloc 0 hiT, ← h3, h1]
    omega
  have hfst : ((classesOf labels).zip (nAlloc.zip tAlloc)).map Prod.fst
      = classesOf labels := by
    refine List.map_fst_zip _ _ ?_
    rw [List.length_zip, hlenA, hlenT, hcslen]
    omega
  have hnd : (((classesOf labels).zip (nAlloc.zip tAlloc)).map Prod.fst).Nodup := by
    rw [hfst]
    exact classesOf_nodup labels
  obtain ⟨j, hjlt, hjc⟩ := List.mem_iff_getElem.mp (mem_classesOf hc)
  have hj' : j < counts.length := by
    rw [hcslen]
    exact hjlt
  have hjA : j < nAlloc.length := by
    rw [hlenA]
    exact hj'
  have hjT : j < tAlloc.length := by
    rw [hlenT]
    exact hj'
  have hjz2 : j < (nAlloc.zip tAlloc).length := by
    rw [List.length_zip]
    omega
  have hjz : j < ((classesOf labels).zip (nAlloc.zip tAlloc)).length := by
    rw [List.length_zip]
    omega
  have hgz1 : ((classesOf labels).zip (nAlloc.zip tAlloc))[j]
      = ((classesOf labels)[j], (nAlloc.zip tAlloc)[j]) := List.getElem_zip
  have hgz2 : (nAlloc.zip tAlloc)[j] = (nAlloc[j], tAlloc[j]) :=
    List.getElem_zip
  have hmem2 : (c, nAlloc.getD j 0, counts.getD j 0 - nAlloc.getD j 0)
      ∈ (classesOf labels).zip (nAlloc.zip tAlloc) := by
    have hx := List.getElem_mem hjz
    rw [hgz1, hgz2, hjc, ← List.getD_eq_getElem nAlloc 0 hjA,
      ← List.getD_eq_getElem tAlloc 0 hjT, htj j hj'] at hx
    exact hx
  have hcj : counts.getD j 0 = labels.count c := by
    rw [hci j hjlt, hjc]
  have hb1 := (approximateMode_getD_bounds counts (labels.length - nTest) j hj').1
  have hb2 := (approximateMode_getD_bounds counts (labels.length - nTest) j hj').2
  rw [← hnA, hsum, hcj] at hb1 hb2
  refine ⟨nAlloc.getD j 0, hb1, hb2, ?_, ?_⟩
  · have h2 := hleA j hj'
    rw [hcj] at h2
    exact h2
  · have hc1 : ((stratIndices seed labels (labels.length - nTest) nTest).2).countP
        (fun x => labels.getD x 0 == c)
        = (((((classesOf labels).zip (nAlloc.zip tAlloc)).map
            (classPart seed labels)).map Prod.snd).flatten).countP
          (fun x => labels.getD x 0 == c) :=
      (rng_applyPerm_perm (mix seed 1000033) _).countP_eq _
    rw [hc1,
      countP_test_parts seed labels ((classesOf labels).zip (nAlloc.zip tAlloc))
        c hlenP,
      sum_ite_of_nodup ((classesOf labels).zip (nAlloc.zip tAlloc)) c
        (nAlloc.getD j 0) (counts.getD j 0 - nAlloc.getD j 0) hnd hmem2, hcj]

/-- C8: for every input on which `_split` succeeds and every bucket `b`
holding at least 200 records, the fraction of bucket `b`'s records that land
in the test subset is within 1% of `test_fraction` (equivalently, bucket
`b`'s share of the test subset is within tolerance of its share of the whole
dataset).  The per-bucket test count is `count(b) - A` where sklearn's
apportionment pins `A` within 1 of `⌊count(b)·n_train/n⌋`, so the deviation
is at most `2 / count(b) ≤ 1/100`. -/
theorem C8_strat_tolerance (lb : Bool) (seed : Nat) (df : DataFrame)
    (ts : Rat) (tr te : DataFrame) (c : Nat)
    (h : splitDF lb seed df ts = .ok (tr, te))
    (hbig : 200 ≤ (dfLabels df).count c) :
    |((((splitIdxOf seed df ts).2).countP
        (fun x => (dfLabels df).getD x 0 == c) : Rat)
      / ((dfLabels df).count c : Rat)) - ts| ≤ mkRat 1 100 := by
  obtain ⟨⟨hts0, hts1⟩, hn⟩ := splitDF_ok_guards lb seed df ts tr te h
  set labels := dfLabels df with hlabdef
  have hlab : labels.length = df.rows.length := dfLabels_length df
  have hcmem : c ∈ labels := List.count_pos_iff.mp (by omega)
  have hTn : nTestOf df.rows.length ts ≤ df.rows.length :=
    nTestOf_le _ _ (le_of_lt hts0) (le_of_lt hts1)
  have hle : nTestOf df.rows.length ts ≤ labels.length := by
    rw [hlab]
    exact hTn
  obtain ⟨A, hA1, hA2, hA3, hcnt⟩ := stratIndices_testCount seed labels
    (nTestOf df.rows.length ts) hle c hcmem
  rw [hlab] at hA1 hA2 hcnt
  have hCP : ((splitIdxOf seed df ts).2).countP
      (fun x => labels.getD x 0 == c) = labels.count c - A := hcnt
  have hcn : labels.count c ≤ df.rows.length := by
    rw [← hlab]
    exact List.count_le_length c labels
  have hEq := nTestOf_eq df.rows.length ts (le_of_lt hts0)
  have hceil1 : ts * (df.rows.length : Rat)
      ≤ ((nTestOf df.rows.length ts : Nat) : Rat) := by
    have h1 := Int.le_ceil (ts * (df.rows.length : Rat))
    rw [← hEq] at h1
    exact_mod_cast h1
  have hceil2 : ((nTestOf df.rows.length ts : Nat) : Rat)
      < ts * (df.rows.length : Rat) + 1 := by
    have h1 := Int.ceil_lt_add_one (ts * (df.rows.length : Rat))
    rw [← hEq] at h1
    exact_mod_cast h1
  obtain ⟨hfl1, hfl2⟩ := div_mul_bounds
    (labels.count c * (df.rows.length - nTestOf df.rows.length ts))
    df.rows.length hn
  have hfb := frac_bound df.rows.length (nTestOf df.rows.length ts)
    (labels.count c * (df.rows.length - nTestOf df.rows.length ts)
      / df.rows.length)
    A (labels.count c) ts hn hbig hcn hTn hceil1 hceil2 hfl1 hfl2 hA1 hA2 hA3
  rw [hCP]
  exact hfb

set_option maxRecDepth 4000 in
/-- Witness for C8 on the concrete 200-record single-bucket dataset with
`test_size = 1/2`: the split succeeds and bucket 0's test ratio is within
1% of 1/2. -/
theorem C8_strat_tolerance_witness :
    splitDF true 43 df200 (mkRat 1 2) = .ok (df200TrainFrame, df200TestFrame) ∧
    200 ≤ (dfLabels df200).count 0 ∧
    |((((splitIdxOf 43 df200 (mkRat 1 2)).2).countP
        (fun x => (dfLabels df200).getD x 0 == 0) : Rat)
      / ((dfLabels df200).count 0 : Rat)) - mkRat 1 2| ≤ mkRat 1 100 :=
  ⟨rfl, by decide,
   C8_strat_tolerance true 43 df200 (mkRat 1 2) df200TrainFrame df200TestFrame
     0 rfl (by decide)⟩

end MleTraining
